import Mathlib

/-!
Shallow embedding of the RANKS arena simulator (src/space.rs, src/sim.rs,
src/vm.rs) and verification of the frozen claims about it.

Modelling conventions:
* `f32` coordinates are modelled by `ℚ`.  All concrete inputs used in the
  theorems below are small integers or halves, on which the `f32` operations
  appearing in the modelled code (`+`, `-`, `*` by `0.5`, `min`, `max`,
  comparisons) are exact, so the rational model agrees bit-for-bit with the
  `f32` computation there.
* The transcendental functions (`atan2` via `Complex.arg`, `cos`, `sin`) are
  modelled over `ℝ` where their exact values matter (`Pair::ang`,
  `World::scan`), and as opaque rational parameters (`cosF`, `sinF`) where
  only the data flow matters (`Pair::polar` in the tank/bullet pipeline).
* Rust panics (`unwrap` on `None`, explicit `panic!`) are modelled by
  `Except.error`; recursion that Rust performs unboundedly is given explicit
  fuel, with fuel exhaustion a separate error value.
-/

namespace RANKS

/-- 2D vector of `f32` (src/space.rs `Pair`), coordinates modelled by `ℚ`. -/
structure Pair where
  x : ℚ
  y : ℚ
deriving DecidableEq, Repr

/-- `Pair::both` -/
def Pair.both (f : ℚ) : Pair := ⟨f, f⟩

/-- `Pair::zero` -/
def Pair.zero : Pair := Pair.both 0

/-- `limag()`: the signed sum `x + y` used as the explosion distance proxy. -/
def Pair.limag (p : Pair) : ℚ := p.x + p.y

/-- `Pair::mins` (componentwise min) -/
def Pair.mins (p q : Pair) : Pair := ⟨min p.x q.x, min p.y q.y⟩

/-- `Pair::maxs` (componentwise max) -/
def Pair.maxs (p q : Pair) : Pair := ⟨max p.x q.x, max p.y q.y⟩

/-- `impl Add for Pair` -/
instance : Add Pair := ⟨fun p q => ⟨p.x + q.x, p.y + q.y⟩⟩

/-- `impl Neg for Pair` -/
instance : Neg Pair := ⟨fun p => ⟨-p.x, -p.y⟩⟩

/-- `impl Mul<f32> for Pair` (scale both components). -/
def Pair.scale (p : Pair) (k : ℚ) : Pair := ⟨p.x * k, p.y * k⟩

theorem Pair.add_def (p q : Pair) : p + q = ⟨p.x + q.x, p.y + q.y⟩ := rfl

theorem Pair.neg_def (p : Pair) : -p = ⟨-p.x, -p.y⟩ := rfl

/-- Axis-aligned box (src/space.rs `AABB`): origin plus dimension. -/
structure AABB where
  org : Pair
  dim : Pair
deriving DecidableEq, Repr

/-- `AABB::new`: normalizes a negative dimension componentwise. -/
def AABB.new (org dim : Pair) : AABB :=
  let ox : ℚ := if dim.x < 0 then org.x + dim.x else org.x
  let dx : ℚ := if dim.x < 0 then -dim.x else dim.x
  let oy : ℚ := if dim.y < 0 then org.y + dim.y else org.y
  let dy : ℚ := if dim.y < 0 then -dim.y else dim.y
  ⟨⟨ox, oy⟩, ⟨dx, dy⟩⟩

/-- `AABB::empty` -/
def AABB.empty : AABB := ⟨Pair.zero, Pair.zero⟩

/-- `AABB::opp` -/
def AABB.opp (b : AABB) : Pair := b.org + b.dim

/-- `AABB::contains`: half-open membership `[org, org+dim)` in each axis. -/
def AABB.contains (b : AABB) (p : Pair) : Bool :=
  decide (b.org.x ≤ p.x) && decide (p.x < b.opp.x) &&
    decide (b.org.y ≤ p.y) && decide (p.y < b.opp.y)

/-- `AABB::enclose`: grows the box when the point is not contained.
Note the source computes the new `dim` as `dim.maxs(&(org + dim))`,
a quantity independent of `point`. -/
def AABB.enclose (b : AABB) (point : Pair) : AABB :=
  if !b.contains point then
    let ur := b.org + b.dim
    ⟨b.org.mins point, b.dim.maxs ur⟩
  else b

/-- `AABB::intersect` -/
def AABB.intersect (b other : AABB) : Option AABB :=
  let org := b.org.maxs other.org
  let opp := b.opp.mins other.opp
  let dim := opp + (-org)
  if dim.x < 0 ∨ dim.y < 0 then none else some (AABB.new org dim)

/-- `AABB::over_points` over a finite list of points. -/
def AABB.over_points : List Pair → AABB
  | [] => AABB.empty
  | p :: rest => rest.foldl (fun a e => a.enclose e) (AABB.new p Pair.zero)

/-- `AABB::around`: a box of dimension `dim` centered on `p`. -/
def AABB.around (p dim : Pair) : AABB :=
  let half := dim.scale (1/2)
  AABB.new (p + (-half)) dim

/-- Outcomes of the Rust panics (and of fuel exhaustion, a modelling
artifact) inside the quadtree code. -/
inductive QPanic where
  /-- `take().unwrap()` on the emptied `RefCell` in the second invocation of
  the `any` closure of `add_pt`/`subdivide`. -/
  | unwrapNone
  /-- the explicit `panic!("Couldn't insert a point into any quadtree child")`. -/
  | cantInsert
  /-- recursion fuel ran out (the Rust code would recurse further). -/
  | fuelOut
deriving DecidableEq, Repr

/-- src/space.rs `QuadTreeNode<T>`: bounding box, optional children
`(pp, pn, np, nn)`, stored data, leaf capacity `max_data`. -/
inductive QTree (T : Type) : Type where
  | mk : AABB → Option (QTree T × QTree T × QTree T × QTree T) →
      List (Pair × T) → ℕ → QTree T

variable {T : Type}

/-- The node's bounding AABB. -/
def QTree.bound : QTree T → AABB
  | .mk b _ _ _ => b

/-- The node's optional children `(pp, pn, np, nn)`. -/
def QTree.children : QTree T → Option (QTree T × QTree T × QTree T × QTree T)
  | .mk _ c _ _ => c

/-- The node's stored data. -/
def QTree.data : QTree T → List (Pair × T)
  | .mk _ _ d _ => d

/-- The node's leaf capacity. -/
def QTree.maxData : QTree T → ℕ
  | .mk _ _ _ m => m

/-- `DEFAULT_QUAD_SIZE` -/
def DEFAULT_QUAD_SIZE : ℕ := 4

/-- `QuadTreeBuilder::from_bound(bound).build()`, with `with_max_data` made
explicit: a childless node with no data. -/
def QTree.build (bound : AABB) (maxData : ℕ) : QTree T :=
  .mk bound none [] maxData

/-- `QuadTreeNode::derive_child` -/
def QTree.deriveChild (n : QTree T) (bound : AABB) : QTree T :=
  .mk bound none [] n.maxData

/-- The `children.iter_mut().any(move |child| child.add_pt(d.borrow_mut()
.take().unwrap()))` pattern shared by `add_pt` and `subdivide`, with the
recursive insertion into a child supplied as `ins`.
`QuadTreeChildrenIterMut::next` advances its index twice per call, so the
iterator yields only the `pp` and `np` children; the datum is `take`n out of
the `RefCell` by the first closure invocation, so if `pp`'s `add_pt` returns
`false` the second invocation unwraps `None` and panics.  Consequently the
explicit "couldn't insert" panic (`QPanic.cantInsert`) is unreachable. -/
def QTree.insertChildrenWith
    (ins : QTree T → Pair × T → Except QPanic (QTree T × Bool))
    (cs : QTree T × QTree T × QTree T × QTree T) (datum : Pair × T) :
    Except QPanic (QTree T × QTree T × QTree T × QTree T) := do
  let (pp', ok) ← ins cs.1 datum
  if ok then pure (pp', cs.2.1, cs.2.2.1, cs.2.2.2)
  else Except.error QPanic.unwrapNone

/-- `QuadTreeNode::subdivide` (src/space.rs lines 216-243), with the
recursive child insertion supplied as `ins`: split the bound at its
midpoint, drain the data into the children, install the children. -/
def QTree.subdivideWith
    (ins : QTree T → Pair × T → Except QPanic (QTree T × Bool))
    (n : QTree T) : Except QPanic (QTree T) := do
  let halfdim := n.bound.dim.scale (1/2)
  let midp := n.bound.org + halfdim
  let cs : QTree T × QTree T × QTree T × QTree T :=
    (n.deriveChild (AABB.new midp halfdim),
     n.deriveChild (AABB.new ⟨midp.x, n.bound.org.y⟩ halfdim),
     n.deriveChild (AABB.new ⟨n.bound.org.x, midp.y⟩ halfdim),
     n.deriveChild (AABB.new n.bound.org halfdim))
  let cs' ← n.data.foldlM (QTree.insertChildrenWith ins) cs
  pure (QTree.mk n.bound (some cs') [] n.maxData)

/-- `SpaceQuery::add_pt` for `QuadTreeNode` (src/space.rs lines 348-366).
Returns the updated node and the `bool` result; panics become errors.
The recursion into `subdivide` and into the children is fuelled; any fuel
larger than the recursion depth of the Rust original gives its result. -/
def QTree.addPt : ℕ → QTree T → Pair × T → Except QPanic (QTree T × Bool)
  | 0, _, _ => Except.error QPanic.fuelOut
  | fuel + 1, n, datum => do
    if !n.bound.contains datum.1 then
      pure (n, false)
    else do
      let n ← if n.data.length ≥ n.maxData then
          QTree.subdivideWith (QTree.addPt fuel) n
        else pure n
      match n.children with
      | some cs => do
        let cs' ← QTree.insertChildrenWith (QTree.addPt fuel) cs datum
        pure (QTree.mk n.bound (some cs') n.data n.maxData, true)
      | none =>
        pure (QTree.mk n.bound n.children (n.data ++ [datum]) n.maxData, true)

/-- The inner `while self.index < top.data.len()` loop of
`QuadTreeQueryIterator::next`, scanning the suffix of the data list that
starts at absolute position `i`: find the first datum contained in the
query box, returning it with the advanced absolute index. -/
def scanFromAux (q : AABB) : List (Pair × T) → ℕ → Option ((Pair × T) × ℕ)
  | [], _ => none
  | d :: rest, i =>
    if q.contains d.1 then some (d, i + 1) else scanFromAux q rest (i + 1)

/-- `scanFromAux` started at index `i` of the full data list. -/
def scanFrom (q : AABB) (data : List (Pair × T)) (i : ℕ) :
    Option ((Pair × T) × ℕ) :=
  scanFromAux q (data.drop i) i

/-- Popping a node off the query stack: its children whose bounds intersect
the query are pushed in order `pp, pn, np, nn` (so `nn` ends up topmost).
The stack is a list with its head as top. -/
def QTree.pushIntersecting (q : AABB) (t : QTree T) (rest : List (QTree T)) :
    List (QTree T) :=
  match t.children with
  | none => rest
  | some cs =>
    (([cs.1, cs.2.1, cs.2.2.1, cs.2.2.2].filter
        (fun c => (q.intersect c.bound).isSome)).reverse) ++ rest

/-- `QuadTreeQueryIterator` (src/space.rs lines 306-344), run to completion,
collecting every yielded datum in order.  Note that the iterator's `index`
field is NOT reset when the top of the stack is popped, exactly as in the
source.  `fuel` bounds the number of iterator steps (a modelling artifact;
any fuel at least `#yields + #nodes + 1` gives the iterator's full output). -/
def queryRun : ℕ → AABB → List (QTree T) → ℕ → List (Pair × T)
  | 0, _, _, _ => []
  | _ + 1, _, [], _ => []
  | fuel + 1, q, top :: rest, index =>
    match scanFrom q top.data index with
    | some (d, i') => d :: queryRun fuel q (top :: rest) i'
    | none =>
      queryRun fuel q (QTree.pushIntersecting q top rest)
        (max index top.data.length)

/-- `SpaceQuery::query`: the iterator starts with the root on the stack and
`index = 0`. -/
def QTree.query (fuel : ℕ) (t : QTree T) (b : AABB) : List (Pair × T) :=
  queryRun fuel b [t] 0

/-! ### Real-valued model of the angular sensor

`Pair::ang` and `World::scan` depend on the exact values of `atan2`, so they
are modelled over `ℝ`, with `y.atan2(x)` (the principal angle of the vector
`(x, y)`, valued in `(-π, π]`) modelled by `Complex.arg ⟨x, y⟩`. -/

/-- `Pair` with real coordinates. -/
structure PairR where
  x : ℝ
  y : ℝ

instance : Add PairR := ⟨fun p q => ⟨p.x + q.x, p.y + q.y⟩⟩

instance : Neg PairR := ⟨fun p => ⟨-p.x, -p.y⟩⟩

@[simp] theorem PairR.addR_def (p q : PairR) : p + q = ⟨p.x + q.x, p.y + q.y⟩ := rfl

@[simp] theorem PairR.negR_def (p : PairR) : -p = ⟨-p.x, -p.y⟩ := rfl

/-- `Pair::ang` (src/space.rs lines 20-27): `self.y.atan2(self.x)`, plus π
when negative. -/
noncomputable def PairR.ang (p : PairR) : ℝ :=
  let a := Complex.arg ⟨p.x, p.y⟩
  if a < 0 then a + Real.pi else a

/-- The per-tank data `World::scan` reads: position and team. -/
structure ScanTank where
  pos : PairR
  team : ℕ

/-- `World::scan` (src/sim.rs lines 389-403): over every tank (dead ones and
the scanning tank included), take the angle of `tank.pos - pos`, keep those
in `[bounds.0, bounds.1)`, and count teammates/enemies of team `tm`. -/
noncomputable def scanR (tanks : List ScanTank) (pos : PairR) (tm : ℕ)
    (bounds : ℝ × ℝ) : ℕ × ℕ :=
  ((tanks.map (fun t => (t, (t.pos + -pos).ang))).filter
      (fun ta => decide (ta.2 ≥ bounds.1) && decide (ta.2 < bounds.2))).foldl
    (fun ut ta => if ta.1.team = tm then (ut.1 + 1, ut.2) else (ut.1, ut.2 + 1))
    (0, 0)

/-- The bound normalization of the `Scan` dispatch arm of `Tank::step`
(src/sim.rs line 153): order the two angles. -/
noncomputable def scanBoundsNorm (hl hu : ℝ) : ℝ × ℝ :=
  if hl < hu then (hl, hu) else (hu, hl)

/-- The result packing of the `Scan` dispatch arm (src/sim.rs line 155):
`((us as u64) << 32) | them as u64`, over `ℕ` models of `u32` values. -/
def packScan (us them : ℕ) : ℕ :=
  ((us % 2 ^ 32) <<< 32) ||| (them % 2 ^ 32)

/-- The value delivered to the guest by a `Scan(hl, hu)` upcall. -/
noncomputable def scanUpcallValue (tanks : List ScanTank) (pos : PairR)
    (tm : ℕ) (hl hu : ℝ) : ℕ :=
  let r := scanR tanks pos tm (scanBoundsNorm hl hu)
  packScan r.1 r.2

/-! ### The simulation (src/sim.rs, src/vm.rs) -/

/-- src/vm.rs `Upcall`.  The `Arc<Mutex<Option<..>>>` result slots of the
value-returning upcalls are VM-internal plumbing and are dropped here;
filling a slot does not change tank or world state. -/
inductive Upcall where
  | none
  | scan (lo hi : ℚ)
  | fire
  | aim (hd : ℚ)
  | turn (hd : ℚ)
  | gpsx
  | gpsy
  | temp
  | forward
  | explode
deriving DecidableEq, Repr

/-- `Upcall::alters_world` (src/vm.rs lines 349-362). -/
def Upcall.alters_world : Upcall → Bool
  | .none => false
  | .scan _ _ => false
  | .fire => true
  | .aim _ => true
  | .turn _ => true
  | .gpsx => false
  | .gpsy => false
  | .temp => false
  | .forward => true
  | .explode => true

/-- src/sim.rs `TankState`. -/
inductive TankState where
  | Dead
  | Free
  | Pending (u : Upcall)
deriving DecidableEq, Repr

/-- The only comparison the source performs on `TankState` (its `PartialEq`
is used solely against `Dead`). -/
def TankState.isDead : TankState → Bool
  | .Dead => true
  | _ => false

/-- src/sim.rs `Configuration`. -/
structure Configuration where
  shoot_heat : ℤ
  idle_heat : ℤ
  move_heat : ℤ
  death_heat : ℤ
  instrs_per_step : ℕ
  bullet_v : ℚ
  bullet_s : ℚ
  hit_rad : ℚ
  tank_v : ℚ
  explode_rad : ℚ
deriving DecidableEq, Repr

/-- `Configuration::default` -/
def Configuration.default : Configuration :=
  ⟨26, -2, -2, 300, 30, 5, 30, 10, 1, 50⟩

/-- src/sim.rs `Bullet`. -/
structure Bullet where
  pos : Pair
  vel : Pair
  dead : Bool
deriving DecidableEq, Repr

/-- `impl Entity for Bullet`: `pos += vel`. -/
def Bullet.step (b : Bullet) : Bullet :=
  { b with pos := b.pos + b.vel }

/-- src/sim.rs `Tank`.  The owned VM is abstracted by `events`, the scripted
results of successive `vm.run_until` calls: each entry is the returned
upcall together with the VM instruction counter at the moment of return
(the VM is deterministic, so one tick's run is such a sequence).  An empty
script behaves as an exhausted instruction budget (`run_until` returns
`Upcall::None`).  `timer` is `timers[0]`, `counter` the VM counter. -/
structure Tank where
  pos : Pair
  instrs_per_step : ℕ
  aim : ℚ
  angle : ℚ
  team : ℕ
  temp : ℤ
  events : List (Upcall × ℤ)
  state : TankState
  timer : ℕ
  counter : ℤ
deriving DecidableEq, Repr

/-- `Tank::apply_heat`: `i32` saturating add, then floored at 0.  (The `i32`
saturation bounds are never reached at the magnitudes considered here.) -/
def Tank.applyHeat (t : Tank) (heat : ℤ) : Tank :=
  let s := t.temp + heat
  { t with temp := if s < 0 then 0 else s }

/-- `Pair::polar(head)`, with the `f32` cosine/sine supplied as opaque
rational-valued parameters (every finite `f32` is rational). -/
def Pair.polar (cosF sinF : ℚ → ℚ) (head : ℚ) : Pair :=
  ⟨cosF head, sinF head⟩

/-- The state threaded through one tank's per-tick loop: the tank itself,
the bullets it appended to the world's bullet list, the actions it pushed
onto the world's action queue, and (instrumentation) the list of upcalls
that reached the dispatch `match`, in order. -/
structure TankStepOut where
  tank : Tank
  bullets : List Bullet
  actions : List (Pair × ℚ)
  applied : List Upcall
deriving DecidableEq, Repr

/-- The bullet spawned by a `Fire` upcall (src/sim.rs lines 157-168):
muzzle offset `bullet_s` along the aim from the tank's position, velocity
`bullet_v` along the aim, not dead. -/
def firedBullet (cosF sinF : ℚ → ℚ) (cfg : Configuration) (pos : Pair)
    (aim : ℚ) : Bullet :=
  ⟨pos + (Pair.polar cosF sinF aim).scale cfg.bullet_s,
   (Pair.polar cosF sinF aim).scale cfg.bullet_v, false⟩

/-- The dispatch `match uc` of `Tank::step` (src/sim.rs lines 151-214),
with the continuation of the loop supplied as `loop`.  Value-returning
upcalls only fill their result slot (no world/tank state change);
`Explode` queues an explosion and breaks; `None` breaks. -/
def tankDispatchWith (cosF sinF : ℚ → ℚ) (cfg : Configuration)
    (loop : TankStepOut → TankStepOut) (o : TankStepOut) (uc : Upcall) :
    TankStepOut :=
  let o := { o with applied := o.applied ++ [uc] }
  match uc with
  | .scan _ _ => loop o
  | .fire =>
    let t := (o.tank).applyHeat cfg.shoot_heat
    let b := firedBullet cosF sinF cfg t.pos t.aim
    loop { o with tank := t, bullets := o.bullets ++ [b] }
  | .aim hd => loop { o with tank := { o.tank with aim := hd } }
  | .turn hd => loop { o with tank := { o.tank with angle := hd } }
  | .gpsx => loop o
  | .gpsy => loop o
  | .temp => loop o
  | .forward =>
    loop { o with tank := { o.tank with
      pos := o.tank.pos + (Pair.polar cosF sinF o.tank.angle).scale cfg.tank_v } }
  | .explode => { o with actions := o.actions ++ [(o.tank.pos, cfg.explode_rad)] }
  | .none => o

/-- The cooldown-timer consultation for world-altering upcalls
(src/sim.rs lines 138-150): suspend to `Pending` and break when
`timers[0] >= instrs_per_step`, otherwise advance the VM counter to
`max(timer, counter)`, stamp `timers[0] := counter + instrs_per_step`,
and dispatch. -/
def tankCooldownWith (cosF sinF : ℚ → ℚ) (cfg : Configuration)
    (loop : TankStepOut → TankStepOut) (o : TankStepOut) (uc : Upcall) :
    TankStepOut :=
  if uc.alters_world then
    if o.tank.timer ≥ o.tank.instrs_per_step then
      { o with tank := { o.tank with state := .Pending uc } }
    else
      let counter := max (o.tank.timer : ℤ) o.tank.counter
      let t := { o.tank with
        counter := counter
        timer := counter.toNat + o.tank.instrs_per_step }
      tankDispatchWith cosF sinF cfg loop { o with tank := t } uc
  else tankDispatchWith cosF sinF cfg loop o uc

/-- The `loop` of `impl Entity for Tank::step` (src/sim.rs lines 121-215):
obtain the next upcall (from the `Pending` state without re-entering the
VM, or from the VM script — an exhausted script behaves as an exhausted
instruction budget, i.e. `Upcall::None`), then consult the cooldown and
dispatch.  `fuel` bounds the number of iterations; the loop breaks by
returning without recursing. -/
def tankLoop (cosF sinF : ℚ → ℚ) (cfg : Configuration) :
    ℕ → TankStepOut → TankStepOut
  | 0, o => o
  | fuel + 1, o =>
    match o.tank.state with
    | .Dead => o
    | .Pending u =>
      tankCooldownWith cosF sinF cfg (tankLoop cosF sinF cfg fuel)
        { o with tank := { o.tank with state := .Free } } u
    | .Free =>
      match o.tank.events with
      | [] =>
        tankCooldownWith cosF sinF cfg (tankLoop cosF sinF cfg fuel) o .none
      | (u, c) :: rest =>
        tankCooldownWith cosF sinF cfg (tankLoop cosF sinF cfg fuel)
          { o with tank := { o.tank with counter := c, events := rest } } u

/-- `impl Entity for Tank::step` (src/sim.rs lines 108-220): idle heat,
`begin_step` (counter reset), timer decrement (saturating), the loop, then
the death-heat check queueing a self-explosion. -/
def Tank.step (cosF sinF : ℚ → ℚ) (cfg : Configuration) (fuel : ℕ) (t : Tank) :
    TankStepOut :=
  let t := t.applyHeat cfg.idle_heat
  let t := { t with counter := 0 }
  let t := { t with timer := t.timer - t.instrs_per_step }
  let o := tankLoop cosF sinF cfg fuel ⟨t, [], [], []⟩
  if o.tank.temp ≥ cfg.death_heat then
    { o with actions := o.actions ++ [(o.tank.pos, cfg.explode_rad)] }
  else o

/-- Entity references stored in the per-tick quadtree: a tank index or a
bullet index (the source stores `Arc` references; the world's lists are
index-addressable, so indices are the faithful pure counterpart). -/
abbrev ERef := ℕ ⊕ ℕ

/-- Tree construction of `World::step` (src/sim.rs lines 315-336): root AABB
from `AABB::over_points` of all tank then bullet positions, `max_data`
defaulted, every entity inserted with its `add_pt` result ignored. -/
def buildQuadTree (fuel : ℕ) (tanks : List Tank) (bullets : List Bullet) :
    Except QPanic (QTree ERef) := do
  let pts := tanks.map Tank.pos ++ bullets.map Bullet.pos
  let root : QTree ERef := QTree.build (AABB.over_points pts) DEFAULT_QUAD_SIZE
  let entries : List (Pair × ERef) :=
    (tanks.map Tank.pos).enum.map (fun e => (e.2, Sum.inl e.1)) ++
      (bullets.map Bullet.pos).enum.map (fun e => (e.2, Sum.inr e.1))
  entries.foldlM (fun r e => do
    let (r', _) ← QTree.addPt fuel r e
    pure r') root

/-- The liveness test of the collision sweep (src/sim.rs lines 346-352):
a tank reference is live when its state is not `Dead`, a bullet reference
when its `dead` flag is unset. -/
def refLive (tanks : List Tank) (bullets : List Bullet) : ERef → Bool
  | .inl i => match tanks.get? i with
    | some t => !t.state.isDead
    | Option.none => false
  | .inr i => match bullets.get? i with
    | some b => !b.dead
    | Option.none => false

/-- Mark the tank at index `i` `Dead`. -/
def markTankDead : List Tank → ℕ → List Tank
  | [], _ => []
  | t :: ts, 0 => { t with state := TankState.Dead } :: ts
  | t :: ts, i + 1 => t :: markTankDead ts i

/-- Mark the bullet at index `i` dead. -/
def markBulletDead : List Bullet → ℕ → List Bullet
  | [], _ => []
  | b :: bs, 0 => { b with dead := true } :: bs
  | b :: bs, i + 1 => b :: markBulletDead bs i

/-- The `for r in v` marking loop of the collision sweep. -/
def markRefs (v : List ERef) (acc : List Tank × List Bullet) :
    List Tank × List Bullet :=
  v.foldl (fun acc r =>
    match r with
    | .inl i => (markTankDead acc.1 i, acc.2)
    | .inr i => (acc.1, markBulletDead acc.2 i)) acc

/-- The body of one collision-sweep iteration (src/sim.rs lines 346-359):
given the collected query result `v` for one tank, if `v` contains any live
entity (the tank itself is not excluded), mark every entity in `v` dead;
otherwise change nothing. -/
def sweepMark (v : List ERef) (tanks : List Tank) (bullets : List Bullet) :
    List Tank × List Bullet :=
  if v.any (refLive tanks bullets) then markRefs v (tanks, bullets)
  else (tanks, bullets)

/-- The query box of the collision sweep (src/sim.rs lines 340-343):
`AABB::around(t.pos, Pair::both(hit_rad))`. -/
def collisionQueryBox (pos : Pair) (hitRad : ℚ) : AABB :=
  AABB.around pos (Pair.both hitRad)

/-- The collision sweep of `World::step` (src/sim.rs lines 311-360): build
the quadtree, then for each tank in order query the box around its position
and apply `sweepMark`.  Positions never change during the sweep, so each
query uses the tank's position as listed; liveness is read from the
accumulated (already partially marked) state. -/
def collisionPhase (fuel : ℕ) (hitRad : ℚ) (tanks : List Tank)
    (bullets : List Bullet) : Except QPanic (List Tank × List Bullet) := do
  let root ← buildQuadTree fuel tanks bullets
  pure ((List.range tanks.length).foldl (fun acc i =>
    match tanks.get? i with
    | some t =>
      let v := (root.query fuel (collisionQueryBox t.pos hitRad)).map Prod.snd
      sweepMark v acc.1 acc.2
    | Option.none => acc) (tanks, bullets))

/-- `World::do_explode` (src/sim.rs lines 405-411): mark `Dead` every tank
whose position `p` satisfies `(p - pos).limag() <= rad`. -/
def doExplode (tanks : List Tank) (pos : Pair) (rad : ℚ) : List Tank :=
  tanks.map (fun t =>
    if (t.pos + -pos).limag ≤ rad then { t with state := TankState.Dead } else t)

/-- The action-queue drain of `World::step` (src/sim.rs lines 362-367):
`Vec::pop` removes from the back, so queued explosions are applied in
reverse queue order. -/
def drainActions (queue : List (Pair × ℚ)) (tanks : List Tank) : List Tank :=
  queue.reverse.foldl (fun ts a => doExplode ts a.1 a.2) tanks

/-- src/sim.rs `World`. -/
structure World where
  config : Configuration
  tanks : List Tank
  bullets : List Bullet
  action_queue : List (Pair × ℚ)
deriving Repr

/-- The tank phase of `World::step` (src/sim.rs lines 301-305): step every
non-dead tank in list order, collecting the bullets appended to the world's
bullet list and the actions pushed onto the action queue. -/
def tankPhase (cosF sinF : ℚ → ℚ) (cfg : Configuration) (fuel : ℕ)
    (tanks : List Tank) : List Tank × List Bullet × List (Pair × ℚ) :=
  tanks.foldl (fun acc t =>
    if t.state.isDead then (acc.1 ++ [t], acc.2.1, acc.2.2)
    else
      let o := Tank.step cosF sinF cfg fuel t
      (acc.1 ++ [o.tank], acc.2.1 ++ o.bullets, acc.2.2 ++ o.actions))
    ([], [], [])

/-- `World::step` (src/sim.rs lines 299-379): tank phase, bullet phase
(every bullet in the list — including those fired this tick — advances by
its velocity), collision sweep, action-queue drain, bullet compaction. -/
def World.step (cosF sinF : ℚ → ℚ) (fuel : ℕ) (w : World) :
    Except QPanic World := do
  let (tanks, newBullets, newActions) := tankPhase cosF sinF w.config fuel w.tanks
  let bullets := (w.bullets ++ newBullets).map Bullet.step
  let (tanks, bullets) ← collisionPhase fuel w.config.hit_rad tanks bullets
  let tanks := drainActions (w.action_queue ++ newActions) tanks
  let bullets := bullets.filter (fun b => !b.dead)
  pure ⟨w.config, tanks, bullets, []⟩

/-! ### Claim C2: the collision-sweep query box -/

/-- C2, corrected.  The collision sweep queries the tree with
`AABB::around(t.pos, Pair::both(hit_rad))`, which is the box centered on
`t.pos` of full dimension `hit_rad` — i.e. half-extent `hit_rad / 2` per
axis, `[pos - hit_rad/2, pos + hit_rad/2)` in each axis — not half-extent
`hit_rad` as the claim states. -/
theorem C2_query_box_half_extent (pos : Pair) (hitRad : ℚ) (h : 0 ≤ hitRad)
    (q : Pair) :
    collisionQueryBox pos hitRad =
      ⟨⟨pos.x - hitRad / 2, pos.y - hitRad / 2⟩, ⟨hitRad, hitRad⟩⟩
    ∧ ((collisionQueryBox pos hitRad).contains q = true ↔
        (pos.x - hitRad / 2 ≤ q.x ∧ q.x < pos.x + hitRad / 2 ∧
         pos.y - hitRad / 2 ≤ q.y ∧ q.y < pos.y + hitRad / 2)) := by
  have hbox : collisionQueryBox pos hitRad =
      ⟨⟨pos.x - hitRad / 2, pos.y - hitRad / 2⟩, ⟨hitRad, hitRad⟩⟩ := by
    have hn : ¬ (hitRad < 0) := not_lt.mpr h
    simp only [collisionQueryBox, AABB.around, AABB.new, Pair.scale,
      Pair.both, Pair.add_def, Pair.neg_def, hn, if_false,
      AABB.mk.injEq, Pair.mk.injEq]
    simp
    constructor <;> ring
  refine ⟨hbox, ?_⟩
  rw [hbox]
  have h2 : pos.x - hitRad / 2 + hitRad = pos.x + hitRad / 2 := by ring
  have h3 : pos.y - hitRad / 2 + hitRad = pos.y + hitRad / 2 := by ring
  simp [AABB.contains, AABB.opp, Pair.add_def, h2, h3, and_assoc]

/-- Witness for C2 at `pos = (0,0)`, `hit_rad = 10`, probe point `(7,0)`:
the box is `[-5, 5)²`, and `(7,0)` — inside the claimed `[-10,10)²` — is
outside the actual box. -/
theorem C2_witness :
    (0:ℚ) ≤ 10 ∧
      collisionQueryBox ⟨0, 0⟩ 10 = ⟨⟨-5, -5⟩, ⟨10, 10⟩⟩ ∧
      (collisionQueryBox ⟨0, 0⟩ 10).contains ⟨7, 0⟩ = false := by
  have h := C2_query_box_half_extent ⟨0, 0⟩ 10 (by norm_num) ⟨7, 0⟩
  refine ⟨by norm_num, ?_, ?_⟩
  · rw [h.1]; norm_num [AABB.mk.injEq, Pair.mk.injEq]
  · have h2 := h.2
    simp only [Bool.eq_false_iff]
    intro hc
    have := h2.mp hc
    norm_num at this

/-- C2, counterexample to the claim as stated: at `t.pos = (0,0)` and
`hit_rad = 10` the query box is not `[-10, 10) × [-10, 10)` (its origin and
dimension differ), and it does not contain `(7, 0)` even though the claimed
box does. -/
theorem C2_counterexample :
    collisionQueryBox ⟨0, 0⟩ 10 ≠ ⟨⟨-10, -10⟩, ⟨20, 20⟩⟩
    ∧ (collisionQueryBox ⟨0, 0⟩ 10).contains ⟨7, 0⟩ = false := by
  constructor
  · intro hc
    have h := (C2_query_box_half_extent ⟨0, 0⟩ 10 (by norm_num) ⟨0, 0⟩).1
    rw [h] at hc
    norm_num [AABB.mk.injEq, Pair.mk.injEq] at hc
  · norm_num [collisionQueryBox, AABB.around, AABB.new, Pair.scale,
      Pair.both, Pair.add_def, Pair.neg_def, AABB.contains, AABB.opp]

/-! ### Claim C3: the root AABB does not cover the points -/

/-- C3 is a code bug.  `AABB::enclose` computes the new dimension as
`dim.maxs(&(org + dim))`, which does not depend on the point being
enclosed, so `AABB::over_points` never grows the initial zero-size box to
the right or upward.  On the list `[(0,0), (4,4), (2,2)]` the root box is
the zero-size box at the origin: it contains none of the three positions
(not even the hull-interior `(2,2)`), and `add_pt` rejects (returns
`false` for) a tank at `(2,2)` inserted into the tree built over it. -/
theorem C3_over_points_fails_to_cover :
    AABB.over_points [⟨0, 0⟩, ⟨4, 4⟩, ⟨2, 2⟩] = ⟨⟨0, 0⟩, ⟨0, 0⟩⟩
    ∧ (AABB.over_points [⟨0, 0⟩, ⟨4, 4⟩, ⟨2, 2⟩]).contains ⟨2, 2⟩ = false
    ∧ (AABB.over_points [⟨0, 0⟩, ⟨4, 4⟩, ⟨2, 2⟩]).contains ⟨4, 4⟩ = false
    ∧ (QTree.addPt 3
        (QTree.build (AABB.over_points [⟨0, 0⟩, ⟨4, 4⟩, ⟨2, 2⟩])
          DEFAULT_QUAD_SIZE : QTree ℕ) (⟨2, 2⟩, 0)).map Prod.snd
        = Except.ok false := by
  have hov : AABB.over_points [⟨0, 0⟩, ⟨4, 4⟩, ⟨2, 2⟩] = ⟨⟨0, 0⟩, ⟨0, 0⟩⟩ := by
    norm_num [AABB.over_points, AABB.enclose, AABB.contains, AABB.new,
      AABB.opp, Pair.zero, Pair.both, Pair.mins, Pair.maxs, Pair.add_def]
  refine ⟨hov, ?_, ?_, ?_⟩
  · rw [hov]; norm_num [AABB.contains, AABB.opp, Pair.add_def]
  · rw [hov]; norm_num [AABB.contains, AABB.opp, Pair.add_def]
  · rw [hov]
    norm_num [QTree.addPt, QTree.build, QTree.bound, AABB.contains,
      AABB.opp, Pair.add_def, Except.map, Bind.bind, Except.bind,
      Pure.pure, Except.pure]

/-! ### Claim C7: explosions kill by the `limag` proxy -/

/-- C7, confirmed.  Draining an `Explode(center, rad)` action applies
`do_explode`, which marks `Dead` exactly the tanks with
`(pos - center).limag() <= rad` — where `limag` is the signed sum `x + y` —
and leaves every other tank entirely unchanged. -/
theorem C7_explode_kills_by_limag (tanks : List Tank) (center : Pair)
    (rad : ℚ) (i : ℕ) (hi : i < tanks.length)
    (hi2 : i < (doExplode tanks center rad).length) :
    (∀ q : Pair, q.limag = q.x + q.y)
    ∧ (((tanks.get ⟨i, hi⟩).pos + -center).limag ≤ rad →
        ((doExplode tanks center rad).get ⟨i, hi2⟩).state = TankState.Dead)
    ∧ (¬ ((tanks.get ⟨i, hi⟩).pos + -center).limag ≤ rad →
        (doExplode tanks center rad).get ⟨i, hi2⟩ = tanks.get ⟨i, hi⟩) := by
  refine ⟨fun q => rfl, ?_, ?_⟩ <;> intro h <;>
    simp only [List.get_eq_getElem] at h ⊢ <;>
    simp [doExplode, List.getElem_map, h]

/-- Witness for C7: a single tank at `(3, 4)`, explosion at the origin with
radius `50`; `limag = 7 ≤ 50`, so the tank is marked `Dead`. -/
theorem C7_witness :
    ((([⟨⟨3, 4⟩, 30, 0, 0, 0, 0, [], TankState.Free, 0, 0⟩] : List Tank).get
        ⟨0, by norm_num⟩).pos + -(⟨0, 0⟩ : Pair)).limag ≤ 50
    ∧ ((doExplode [⟨⟨3, 4⟩, 30, 0, 0, 0, 0, [], TankState.Free, 0, 0⟩]
        ⟨0, 0⟩ 50).get ⟨0, by norm_num [doExplode]⟩).state = TankState.Dead := by
  have hlim : ((([⟨⟨3, 4⟩, 30, 0, 0, 0, 0, [], TankState.Free, 0, 0⟩] :
      List Tank).get ⟨0, by norm_num⟩).pos + -(⟨0, 0⟩ : Pair)).limag ≤ 50 := by
    norm_num [Pair.limag, Pair.add_def, Pair.neg_def]
  exact ⟨hlim,
    (C7_explode_kills_by_limag [⟨⟨3, 4⟩, 30, 0, 0, 0, 0, [], TankState.Free, 0, 0⟩]
      ⟨0, 0⟩ 50 0 (by norm_num) (by norm_num [doExplode])).2.1 hlim⟩

/-! ### Claim C8: the range of `Pair::ang` -/

/-- C8, corrected.  `ang()` equals `atan2(y, x)` when that is non-negative
and `atan2(y, x) + π` when it is negative, but its range is the closed
interval `[0, π]`, not `[0, π)`: `atan2` attains `π` itself (on the
negative x-axis), and the fold leaves it there. -/
theorem C8_ang_range (p : PairR) :
    PairR.ang p ∈ Set.Icc 0 Real.pi
    ∧ (0 ≤ Complex.arg ⟨p.x, p.y⟩ →
        PairR.ang p = Complex.arg ⟨p.x, p.y⟩)
    ∧ (Complex.arg ⟨p.x, p.y⟩ < 0 →
        PairR.ang p = Complex.arg ⟨p.x, p.y⟩ + Real.pi) := by
  have hle : Complex.arg ⟨p.x, p.y⟩ ≤ Real.pi := Complex.arg_le_pi _
  have hgt : -Real.pi < Complex.arg ⟨p.x, p.y⟩ := Complex.neg_pi_lt_arg _
  unfold PairR.ang
  rcases lt_or_ge (Complex.arg ⟨p.x, p.y⟩) 0 with hneg | hpos
  · rw [if_pos hneg]
    refine ⟨⟨by linarith, by linarith⟩, fun hc => absurd hneg (not_lt.mpr hc),
      fun _ => rfl⟩
  · rw [if_neg (not_lt.mpr hpos)]
    exact ⟨⟨hpos, hle⟩, fun _ => rfl, fun hc => absurd hc (not_lt.mpr hpos)⟩

/-- Witness for C8 at `p = (0, 1)`: `arg = π/2 ≥ 0`, so `ang p = arg p`,
and the value lies in `[0, π]`. -/
theorem C8_witness :
    PairR.ang ⟨0, 1⟩ ∈ Set.Icc 0 Real.pi
    ∧ PairR.ang ⟨0, 1⟩ = Complex.arg ⟨(0:ℝ), (1:ℝ)⟩ := by
  have hI : (⟨(0:ℝ), (1:ℝ)⟩ : ℂ) = Complex.I := by
    apply Complex.ext <;> simp
  have harg : Complex.arg ⟨(0:ℝ), (1:ℝ)⟩ = Real.pi / 2 := by
    rw [hI, Complex.arg_I]
  exact ⟨(C8_ang_range ⟨0, 1⟩).1,
    (C8_ang_range ⟨0, 1⟩).2.1 (by rw [harg]; positivity)⟩

/-- C8, counterexample to the claim as stated: at `p = (-1, 0)`,
`atan2(0, -1) = π ≥ 0`, so `ang p = π`, which is not in `[0, π)`. -/
theorem C8_counterexample :
    PairR.ang ⟨-1, 0⟩ = Real.pi
    ∧ ¬ PairR.ang ⟨-1, 0⟩ ∈ Set.Ico 0 Real.pi := by
  have hneg : (⟨(-1:ℝ), (0:ℝ)⟩ : ℂ) = -1 := by
    apply Complex.ext <;> simp
  have harg : Complex.arg ⟨(-1:ℝ), (0:ℝ)⟩ = Real.pi := by
    rw [hneg, Complex.arg_neg_one]
  have hval : PairR.ang ⟨-1, 0⟩ = Real.pi := by
    unfold PairR.ang
    rw [harg, if_neg (not_lt.mpr Real.pi_pos.le)]
  refine ⟨hval, ?_⟩
  rw [hval]
  intro hc
  exact absurd hc.2 (lt_irrefl _)

/-! ### Claim C5: the scan-counts scenario -/

/-- The tanks of the scan scenario: teams `{0, 0, 1}` at positions
`{(0,0), (10,0), (0,10)}`. -/
noncomputable def scanScenario : List ScanTank :=
  [⟨⟨0, 0⟩, 0⟩, ⟨⟨10, 0⟩, 0⟩, ⟨⟨0, 10⟩, 1⟩]

theorem arg_zero_zero : Complex.arg ⟨(0:ℝ), (0:ℝ)⟩ = 0 := by
  have h : (⟨(0:ℝ), (0:ℝ)⟩ : ℂ) = 0 := by apply Complex.ext <;> simp
  rw [h, Complex.arg_zero]

theorem arg_ten_zero : Complex.arg ⟨(10:ℝ), (0:ℝ)⟩ = 0 := by
  have h : (⟨(10:ℝ), (0:ℝ)⟩ : ℂ) = ((10:ℝ) : ℂ) := by
    apply Complex.ext <;> simp
  rw [h, Complex.arg_ofReal_of_nonneg (by norm_num)]

theorem arg_zero_ten : Complex.arg ⟨(0:ℝ), (10:ℝ)⟩ = Real.pi / 2 := by
  rw [Complex.arg_eq_pi_div_two_iff]
  exact ⟨rfl, by norm_num⟩

theorem ang_zero_zero : PairR.ang ⟨0, 0⟩ = 0 := by
  unfold PairR.ang
  rw [arg_zero_zero, if_neg (lt_irrefl 0)]

theorem ang_ten_zero : PairR.ang ⟨10, 0⟩ = 0 := by
  unfold PairR.ang
  rw [arg_ten_zero, if_neg (lt_irrefl 0)]

theorem ang_zero_ten : PairR.ang ⟨0, 10⟩ = Real.pi / 2 := by
  unfold PairR.ang
  rw [arg_zero_ten, if_neg (not_lt.mpr (by positivity))]

/-- Evaluation of the scan in the scenario: the sensor iterates over every
tank without filtering on identity, so the scanning tank counts itself:
friends = 2 (self and the tank at `(10,0)`), enemies = 1. -/
theorem scanR_scenario_eval :
    scanR scanScenario ⟨0, 0⟩ 0 (0, 2 * Real.pi) = (2, 1) := by
  have hpi : (0:ℝ) < 2 * Real.pi := by positivity
  have hd1 : ((⟨⟨0, 0⟩, 0⟩ : ScanTank).pos + -(⟨0, 0⟩ : PairR)) = ⟨0, 0⟩ := by
    simp [PairR.mk.injEq]
  have hd2 : ((⟨⟨10, 0⟩, 0⟩ : ScanTank).pos + -(⟨0, 0⟩ : PairR)) = ⟨10, 0⟩ := by
    simp [PairR.mk.injEq]
  have hd3 : ((⟨⟨0, 10⟩, 1⟩ : ScanTank).pos + -(⟨0, 0⟩ : PairR)) = ⟨0, 10⟩ := by
    simp [PairR.mk.injEq]
  have hc1 : (0:ℝ) ≥ 0 ∧ (0:ℝ) < 2 * Real.pi := ⟨le_refl 0, hpi⟩
  have hc3 : Real.pi / 2 ≥ 0 ∧ Real.pi / 2 < 2 * Real.pi := by
    constructor <;> nlinarith [Real.pi_pos]
  unfold scanR scanScenario
  rw [List.map_cons, List.map_cons, List.map_cons, List.map_nil]
  rw [hd1, hd2, hd3, ang_zero_zero, ang_ten_zero, ang_zero_ten]
  rw [List.filter_cons, List.filter_cons, List.filter_cons, List.filter_nil]
  simp only [decide_eq_true_eq, Bool.and_eq_true, hc1.1, hc1.2, hc3.1, hc3.2,
    ge_iff_le, le_refl, if_true]
  norm_num

/-- C5, counterexample to the claim as stated: in the scenario the scan
returns friends = 2, not friends = 1 — the sensor iterates over every tank
including the scanning tank itself, so the scanning team-0 tank counts
itself as a friend in addition to the tank at `(10, 0)`. -/
theorem C5_counterexample :
    scanR scanScenario ⟨0, 0⟩ 0 (0, 2 * Real.pi) ≠ (1, 1) := by
  rw [scanR_scenario_eval]
  intro h
  exact absurd (congrArg Prod.fst h) (by norm_num)

/-- C5, amended: the scan counts friends = 2 (self included) and
enemies = 1, and the value delivered to the guest is
`(friends << 32) | enemies = (2 << 32) | 1 = 8589934593`. -/
theorem C5_scan_scenario :
    scanR scanScenario ⟨0, 0⟩ 0 (0, 2 * Real.pi) = (2, 1)
    ∧ scanUpcallValue scanScenario ⟨0, 0⟩ 0 0 (2 * Real.pi) = packScan 2 1
    ∧ packScan 2 1 = 2 * 2 ^ 32 + 1 := by
  have hpi : (0:ℝ) < 2 * Real.pi := by positivity
  refine ⟨scanR_scenario_eval, ?_, by decide⟩
  unfold scanUpcallValue scanBoundsNorm
  rw [if_pos hpi, scanR_scenario_eval]

/-! ### Claim C9: `add_pt` panics on subdivision -/

/-- Sequential insertion requiring each `add_pt` call to complete without
panicking, collecting the returned booleans. -/
def addPtSeq (fuel : ℕ) :
    QTree T → List (Pair × T) → Except QPanic (QTree T × List Bool)
  | t, [] => Except.ok (t, [])
  | t, d :: ds => do
    let (t', b) ← QTree.addPt fuel t d
    let (t'', bs) ← addPtSeq fuel t' ds
    Except.ok (t'', b :: bs)

/-- C9 is a code bug.  Inserting the in-bound point `(1,1)` five times into
a fresh tree over `[0,8)²` (capacity `max_data = 4`): the first four
insertions return `true`, and the fifth triggers `subdivide`, whose
redistribution tries the drained `(1,1)` only against the `pp` child
`[4,8)²` (the buggy `iter_mut` skips `pn` and `nn`), which rejects it; the
second `any` closure invocation then unwraps the emptied `RefCell` and the
program panics.  In particular `add_pt` does not return `true`, and the
explicit "couldn't insert" panic branch is never reached — the `unwrap`
panics first. -/
theorem C9_addPt_unwrap_panic :
    (⟨⟨0, 0⟩, ⟨8, 8⟩⟩ : AABB).contains ⟨1, 1⟩ = true
    ∧ (addPtSeq 6 (QTree.build ⟨⟨0, 0⟩, ⟨8, 8⟩⟩ DEFAULT_QUAD_SIZE : QTree ℕ)
        [(⟨1, 1⟩, 0), (⟨1, 1⟩, 1), (⟨1, 1⟩, 2), (⟨1, 1⟩, 3)]).map Prod.snd
      = Except.ok [true, true, true, true]
    ∧ (addPtSeq 6 (QTree.build ⟨⟨0, 0⟩, ⟨8, 8⟩⟩ DEFAULT_QUAD_SIZE : QTree ℕ)
        [(⟨1, 1⟩, 0), (⟨1, 1⟩, 1), (⟨1, 1⟩, 2), (⟨1, 1⟩, 3), (⟨1, 1⟩, 4)]).map
        Prod.snd
      = Except.error QPanic.unwrapNone := by
  refine ⟨by norm_num [AABB.contains, AABB.opp, Pair.add_def], ?_, ?_⟩ <;>
    norm_num [addPtSeq, QTree.addPt, QTree.build, QTree.subdivideWith,
      QTree.insertChildrenWith, QTree.deriveChild, QTree.bound,
      QTree.children, QTree.data, QTree.maxData, AABB.contains, AABB.new,
      AABB.opp, Pair.add_def, Pair.neg_def, Pair.scale, Pair.both,
      DEFAULT_QUAD_SIZE, Except.map, Bind.bind, Except.bind, Pure.pure,
      Except.pure, List.foldlM]

/-! ### Claim C1: the collision sweep does not exclude the tank itself -/

/-- A tank with the default per-tick budget and everything else zeroed:
only its position and state matter to the collision sweep. -/
def simpleTank (pos : Pair) (st : TankState) : Tank :=
  ⟨pos, 30, 0, 0, 0, 0, [], st, 0, 0⟩

/-- C1, counterexample to the claim as stated.  Two live tanks at
`(100,100)` and `(0,0)` (no bullets): the buggy root box `[0,100)²` drops
the tank at `(100,100)`, so tank 1's query result is `[inl 1]` — itself
only, no other live entity.  The claim then says tank 1 is not killed; but
the sweep's liveness filter does not exclude the tank itself, so the
result set "contains a live entity" and tank 1 is marked Dead. -/
theorem C1_counterexample :
    (buildQuadTree 8 [simpleTank ⟨100, 100⟩ TankState.Free,
        simpleTank ⟨0, 0⟩ TankState.Free] []).map
        (fun root => (root.query 8 (collisionQueryBox ⟨0, 0⟩ 10)).map Prod.snd)
      = Except.ok [Sum.inl 1]
    ∧ (simpleTank ⟨0, 0⟩ TankState.Free).state.isDead = false
    ∧ collisionPhase 8 10 [simpleTank ⟨100, 100⟩ TankState.Free,
        simpleTank ⟨0, 0⟩ TankState.Free] []
      = Except.ok ([simpleTank ⟨100, 100⟩ TankState.Free,
          simpleTank ⟨0, 0⟩ TankState.Dead], []) := by
  refine ⟨?_, rfl, ?_⟩ <;>
    norm_num [buildQuadTree, collisionPhase, collisionQueryBox,
      AABB.over_points, AABB.enclose, AABB.around, AABB.new, AABB.contains,
      AABB.intersect, AABB.opp, AABB.empty, Pair.mins, Pair.maxs, Pair.zero,
      Pair.both, Pair.scale, Pair.add_def, Pair.neg_def, simpleTank,
      QTree.build, QTree.addPt, QTree.subdivideWith, QTree.insertChildrenWith,
      QTree.deriveChild, QTree.bound, QTree.children, QTree.data,
      QTree.maxData, QTree.query, queryRun, scanFrom, scanFromAux,
      QTree.pushIntersecting, DEFAULT_QUAD_SIZE, Except.map, Bind.bind,
      Except.bind, Pure.pure, Except.pure, List.foldlM, List.range_succ,
      sweepMark, markRefs, refLive, markTankDead, markBulletDead,
      TankState.isDead, Tank.pos, Bullet.pos]

theorem markTankDead_get? (ts : List Tank) (i j : ℕ) :
    (markTankDead ts i).get? j =
      if j = i then (ts.get? j).map (fun t => { t with state := TankState.Dead })
      else ts.get? j := by
  induction ts generalizing i j with
  | nil => simp [markTankDead]
  | cons t ts ih =>
    cases i with
    | zero => cases j <;> simp [markTankDead]
    | succ i =>
      cases j with
      | zero => simp [markTankDead]
      | succ j => simpa [markTankDead] using ih i j

theorem markBulletDead_get? (bs : List Bullet) (i j : ℕ) :
    (markBulletDead bs i).get? j =
      if j = i then (bs.get? j).map (fun b => { b with dead := true })
      else bs.get? j := by
  induction bs generalizing i j with
  | nil => simp [markBulletDead]
  | cons b bs ih =>
    cases i with
    | zero => cases j <;> simp [markBulletDead]
    | succ i =>
      cases j with
      | zero => simp [markBulletDead]
      | succ j => simpa [markBulletDead] using ih i j

theorem refLive_markTankDead_self (ts : List Tank) (bs : List Bullet) (i : ℕ) :
    refLive (markTankDead ts i) bs (Sum.inl i) = false := by
  simp only [refLive, markTankDead_get?, if_pos rfl]
  cases ts.get? i <;> simp [TankState.isDead]

theorem refLive_markBulletDead_self (ts : List Tank) (bs : List Bullet) (i : ℕ) :
    refLive ts (markBulletDead bs i) (Sum.inr i) = false := by
  simp only [refLive, markBulletDead_get?, if_pos rfl]
  cases bs.get? i <;> simp

theorem refLive_markTankDead_mono (ts : List Tank) (bs : List Bullet) (i : ℕ)
    (r : ERef) (h : refLive ts bs r = false) :
    refLive (markTankDead ts i) bs r = false := by
  cases r with
  | inr j => simpa [refLive] using h
  | inl j =>
    by_cases hj : j = i
    · subst hj; exact refLive_markTankDead_self ts bs j
    · simp only [refLive, markTankDead_get?, if_neg hj]
      simpa [refLive] using h

theorem refLive_markBulletDead_mono (ts : List Tank) (bs : List Bullet) (i : ℕ)
    (r : ERef) (h : refLive ts bs r = false) :
    refLive ts (markBulletDead bs i) r = false := by
  cases r with
  | inl j => simpa [refLive] using h
  | inr j =>
    by_cases hj : j = i
    · subst hj; exact refLive_markBulletDead_self ts bs j
    · simp only [refLive, markBulletDead_get?, if_neg hj]
      simpa [refLive] using h

theorem markRefs_cons (r0 : ERef) (v : List ERef) (acc : List Tank × List Bullet) :
    markRefs (r0 :: v) acc = markRefs v
      (match r0 with
       | .inl i => (markTankDead acc.1 i, acc.2)
       | .inr i => (acc.1, markBulletDead acc.2 i)) := by
  simp [markRefs]

theorem markRefs_preserves_dead :
    ∀ (v : List ERef) (acc : List Tank × List Bullet) (r : ERef),
      refLive acc.1 acc.2 r = false →
      refLive (markRefs v acc).1 (markRefs v acc).2 r = false := by
  intro v
  induction v with
  | nil => intro acc r h; simpa [markRefs] using h
  | cons r0 v ih =>
    intro acc r h
    rw [markRefs_cons]
    apply ih
    cases r0 with
    | inl i => exact refLive_markTankDead_mono acc.1 acc.2 i r h
    | inr i => exact refLive_markBulletDead_mono acc.1 acc.2 i r h

theorem markRefs_kills :
    ∀ (v : List ERef) (acc : List Tank × List Bullet) (r : ERef), r ∈ v →
      refLive (markRefs v acc).1 (markRefs v acc).2 r = false := by
  intro v
  induction v with
  | nil => intro acc r h; cases h
  | cons r0 v ih =>
    intro acc r h
    rw [markRefs_cons]
    rcases List.mem_cons.mp h with rfl | hv
    · apply markRefs_preserves_dead
      cases r with
      | inl i => exact refLive_markTankDead_self acc.1 acc.2 i
      | inr i => exact refLive_markBulletDead_self acc.1 acc.2 i
    · exact ih _ r hv

/-- C1, amended.  In each collision-sweep iteration, the entities in the
tank's query result set are all marked dead exactly when the result set
contains some live entity — the tank itself NOT excluded: when no entity in
the set is live the world is unchanged, and when any (possibly the querying
tank itself, which its own query box always selects once it was inserted)
is live, every referenced entity is dead afterwards.  Consequently a live
tank whose query result contains only itself IS killed by the sweep. -/
theorem C1_sweep_mark_condition (v : List ERef) (tanks : List Tank)
    (bullets : List Bullet) :
    (v.any (refLive tanks bullets) = false →
      sweepMark v tanks bullets = (tanks, bullets))
    ∧ (v.any (refLive tanks bullets) = true →
      ∀ r ∈ v, refLive (sweepMark v tanks bullets).1
        (sweepMark v tanks bullets).2 r = false) := by
  constructor
  · intro h; simp [sweepMark, h]
  · intro h r hr
    simp only [sweepMark, h, if_true]
    exact markRefs_kills v (tanks, bullets) r hr

/-- Witness for C1's amended statement: a single live tank whose query
result set is exactly itself is killed by its own sweep iteration. -/
theorem C1_witness :
    ([Sum.inl 0] : List ERef).any
      (refLive [simpleTank ⟨0, 0⟩ TankState.Free] []) = true
    ∧ refLive (sweepMark [Sum.inl 0] [simpleTank ⟨0, 0⟩ TankState.Free] []).1
        (sweepMark [Sum.inl 0] [simpleTank ⟨0, 0⟩ TankState.Free] []).2
        (Sum.inl 0) = false := by
  have hany : ([Sum.inl 0] : List ERef).any
      (refLive [simpleTank ⟨0, 0⟩ TankState.Free] []) = true := by
    norm_num [refLive, simpleTank, TankState.isDead]
  exact ⟨hany,
    (C1_sweep_mark_condition [Sum.inl 0] [simpleTank ⟨0, 0⟩ TankState.Free]
      []).2 hany (Sum.inl 0) (by norm_num)⟩

/-! ### Claim C6: the cooldown throttles world-altering upcalls -/

/-- Number of world-altering upcalls in a dispatch log. -/
def countAlter (l : List Upcall) : ℕ :=
  l.countP (fun u => u.alters_world)

theorem countAlter_append_one (l : List Upcall) (u : Upcall) :
    countAlter (l ++ [u]) =
      countAlter l + (if u.alters_world then 1 else 0) := by
  simp [countAlter, List.countP_append, List.countP_cons]

/-- Once the cooldown timer is at or above `instrs_per_step`, the rest of
the tick's loop applies no further world-altering upcall: the first
altering upcall encountered suspends to `Pending` and breaks. -/
theorem tankLoop_countAlter_of_timer_ge (cosF sinF : ℚ → ℚ)
    (cfg : Configuration) :
    ∀ (fuel : ℕ) (o : TankStepOut),
      o.tank.instrs_per_step ≤ o.tank.timer →
      countAlter (tankLoop cosF sinF cfg fuel o).applied
        = countAlter o.applied := by
  intro fuel
  induction fuel with
  | zero => intro o _; rfl
  | succ fuel ih =>
    have hdis : ∀ (o : TankStepOut) (u : Upcall), u.alters_world = false →
        o.tank.instrs_per_step ≤ o.tank.timer →
        countAlter (tankDispatchWith cosF sinF cfg
          (tankLoop cosF sinF cfg fuel) o u).applied = countAlter o.applied := by
      intro o u hu h
      cases u with
      | fire => simp [Upcall.alters_world] at hu
      | aim hd => simp [Upcall.alters_world] at hu
      | turn hd => simp [Upcall.alters_world] at hu
      | forward => simp [Upcall.alters_world] at hu
      | explode => simp [Upcall.alters_world] at hu
      | none =>
        simp only [tankDispatchWith]
        simp [countAlter_append_one, Upcall.alters_world]
      | scan lo hi =>
        simp only [tankDispatchWith]
        rw [ih _ (by simpa using h)]
        simp [countAlter_append_one, Upcall.alters_world]
      | gpsx =>
        simp only [tankDispatchWith]
        rw [ih _ (by simpa using h)]
        simp [countAlter_append_one, Upcall.alters_world]
      | gpsy =>
        simp only [tankDispatchWith]
        rw [ih _ (by simpa using h)]
        simp [countAlter_append_one, Upcall.alters_world]
      | temp =>
        simp only [tankDispatchWith]
        rw [ih _ (by simpa using h)]
        simp [countAlter_append_one, Upcall.alters_world]
    intro o h
    simp only [tankLoop]
    cases hst : o.tank.state with
    | Dead => simp [hst]
    | Pending u =>
      simp only [hst]
      cases hu : u.alters_world with
      | true =>
        simp only [tankCooldownWith, hu, if_true, ge_iff_le]
        rw [if_pos (by simpa using h)]
      | false =>
        simp only [tankCooldownWith, hu, Bool.false_eq_true, if_false]
        exact hdis _ u hu (by simpa using h)
    | Free =>
      simp only [hst]
      cases hev : o.tank.events with
      | nil =>
        simp only [hev]
        simp only [tankCooldownWith, Upcall.alters_world, Bool.false_eq_true,
          if_false]
        exact hdis _ .none rfl (by simpa using h)
      | cons uc rest =>
        obtain ⟨u, c⟩ := uc
        simp only [hev]
        cases hu : u.alters_world with
        | true =>
          simp only [tankCooldownWith, hu, if_true, ge_iff_le]
          rw [if_pos (by simpa using h)]
        | false =>
          simp only [tankCooldownWith, hu, Bool.false_eq_true, if_false]
          exact hdis _ u hu (by simpa using h)

/-- Any run of the tick loop applies at most one more world-altering upcall
than already logged. -/
theorem tankLoop_countAlter_le (cosF sinF : ℚ → ℚ) (cfg : Configuration) :
    ∀ (fuel : ℕ) (o : TankStepOut),
      countAlter (tankLoop cosF sinF cfg fuel o).applied
        ≤ countAlter o.applied + 1 := by
  intro fuel
  induction fuel with
  | zero => intro o; exact Nat.le_succ _
  | succ fuel ih =>
    have hdis : ∀ (o : TankStepOut) (u : Upcall),
        (u.alters_world = false ∨ o.tank.instrs_per_step ≤ o.tank.timer) →
        countAlter (tankDispatchWith cosF sinF cfg
          (tankLoop cosF sinF cfg fuel) o u).applied
          ≤ countAlter o.applied + 1 := by
      intro o u hcase
      cases u <;> simp only [tankDispatchWith]
      case scan lo hi =>
        calc countAlter (tankLoop cosF sinF cfg fuel _).applied
            ≤ _ + 1 := ih _
          _ = countAlter o.applied + 1 := by
              simp [countAlter_append_one, Upcall.alters_world]
      case gpsx =>
        calc countAlter (tankLoop cosF sinF cfg fuel _).applied
            ≤ _ + 1 := ih _
          _ = countAlter o.applied + 1 := by
              simp [countAlter_append_one, Upcall.alters_world]
      case gpsy =>
        calc countAlter (tankLoop cosF sinF cfg fuel _).applied
            ≤ _ + 1 := ih _
          _ = countAlter o.applied + 1 := by
              simp [countAlter_append_one, Upcall.alters_world]
      case temp =>
        calc countAlter (tankLoop cosF sinF cfg fuel _).applied
            ≤ _ + 1 := ih _
          _ = countAlter o.applied + 1 := by
              simp [countAlter_append_one, Upcall.alters_world]
      case none =>
        simp [countAlter_append_one, Upcall.alters_world]
      case explode =>
        simp [countAlter_append_one, Upcall.alters_world]
      case fire =>
        have h : o.tank.instrs_per_step ≤ o.tank.timer := by
          rcases hcase with hc | hc
          · simp [Upcall.alters_world] at hc
          · exact hc
        rw [tankLoop_countAlter_of_timer_ge cosF sinF cfg fuel _
          (by simpa [Tank.applyHeat] using h)]
        simp [countAlter_append_one, Upcall.alters_world]
      case aim hd =>
        have h : o.tank.instrs_per_step ≤ o.tank.timer := by
          rcases hcase with hc | hc
          · simp [Upcall.alters_world] at hc
          · exact hc
        rw [tankLoop_countAlter_of_timer_ge cosF sinF cfg fuel _
          (by simpa using h)]
        simp [countAlter_append_one, Upcall.alters_world]
      case turn hd =>
        have h : o.tank.instrs_per_step ≤ o.tank.timer := by
          rcases hcase with hc | hc
          · simp [Upcall.alters_world] at hc
          · exact hc
        rw [tankLoop_countAlter_of_timer_ge cosF sinF cfg fuel _
          (by simpa using h)]
        simp [countAlter_append_one, Upcall.alters_world]
      case forward =>
        have h : o.tank.instrs_per_step ≤ o.tank.timer := by
          rcases hcase with hc | hc
          · simp [Upcall.alters_world] at hc
          · exact hc
        rw [tankLoop_countAlter_of_timer_ge cosF sinF cfg fuel _
          (by simpa using h)]
        simp [countAlter_append_one, Upcall.alters_world]
    have hcool : ∀ (o : TankStepOut) (u : Upcall),
        countAlter (tankCooldownWith cosF sinF cfg
          (tankLoop cosF sinF cfg fuel) o u).applied
          ≤ countAlter o.applied + 1 := by
      intro o u
      cases hu : u.alters_world with
      | false =>
        simp only [tankCooldownWith, hu, Bool.false_eq_true, if_false]
        exact hdis o u (Or.inl hu)
      | true =>
        simp only [tankCooldownWith, hu, if_true, ge_iff_le]
        by_cases ht : o.tank.instrs_per_step ≤ o.tank.timer
        · rw [if_pos ht]
          exact Nat.le_succ _
        · rw [if_neg ht]
          apply hdis _ u
          right
          simp
    intro o
    simp only [tankLoop]
    cases hst : o.tank.state with
    | Dead => exact Nat.le_succ _
    | Pending u => exact le_trans (hcool _ u) (by simp)
    | Free =>
      cases hev : o.tank.events with
      | nil => exact le_trans (hcool _ .none) (by simp)
      | cons uc rest =>
        obtain ⟨u, c⟩ := uc
        exact le_trans (hcool _ u) (by simp)

/-- C6, confirmed.  (1) One tick of `Tank::step` applies at most one
world-altering upcall.  (2) Once the timer is at or above
`instrs_per_step` — as it is right after an altering upcall stamps
`timer := counter + instrs_per_step` — the next world-altering upcall
returned by the VM is stored as `Pending`, ends the loop for the tick, and
is not dispatched (the applied log is unchanged). -/
theorem C6_cooldown_throttles (cosF sinF : ℚ → ℚ) (cfg : Configuration)
    (fuel : ℕ) (t : Tank) :
    countAlter (Tank.step cosF sinF cfg fuel t).applied ≤ 1
    ∧ (∀ (o : TankStepOut) (u : Upcall) (c : ℤ) (rest : List (Upcall × ℤ)),
        o.tank.state = .Free → o.tank.events = (u, c) :: rest →
        u.alters_world = true →
        o.tank.instrs_per_step ≤ o.tank.timer →
        tankLoop cosF sinF cfg (fuel + 1) o =
          { o with tank := { o.tank with
              counter := c, events := rest, state := .Pending u } }) := by
  constructor
  · have happ : ∀ (o : TankStepOut) (pr : Pair × ℚ),
        (if o.tank.temp ≥ cfg.death_heat then
            { o with actions := o.actions ++ [pr] } else o).applied
          = o.applied := by
      intro o pr
      split <;> rfl
    unfold Tank.step
    simp only [happ]
    simpa [countAlter] using tankLoop_countAlter_le cosF sinF cfg fuel _
  · intro o u c rest hst hev hu h
    obtain ⟨⟨pos, ips, aim, ang, team, temp, ev, st, tm, ctr⟩, bl, ac, ap⟩ := o
    simp only at hst hev h
    subst hst hev
    simp only [tankLoop, tankCooldownWith, hu, if_true, ge_iff_le]
    rw [if_pos (by simpa using h)]

/-- Witness for C6: a tank whose guest fires twice in one tick.  Only the
first fire is dispatched (`countAlter ≤ 1`); and a tick-loop state whose
timer (35) is at or above `instrs_per_step` (30) suspends an incoming
`fire` to `Pending` without dispatching it. -/
theorem C6_witness :
    countAlter (Tank.step (fun _ => 1) (fun _ => 0) Configuration.default 10
      ⟨⟨0, 0⟩, 30, 0, 0, 0, 0, [(.fire, 5), (.fire, 10), (.none, 20)],
        .Free, 0, 0⟩).applied ≤ 1
    ∧ tankLoop (fun _ => 1) (fun _ => 0) Configuration.default (9 + 1)
        ⟨⟨⟨0, 0⟩, 30, 0, 0, 0, 0, [(.fire, 5)], .Free, 35, 0⟩, [], [], []⟩
      = ⟨⟨⟨0, 0⟩, 30, 0, 0, 0, 0, [], .Pending .fire, 35, 5⟩, [], [], []⟩ := by
  constructor
  · exact (C6_cooldown_throttles (fun _ => 1) (fun _ => 0)
      Configuration.default 10
      ⟨⟨0, 0⟩, 30, 0, 0, 0, 0, [(.fire, 5), (.fire, 10), (.none, 20)],
        .Free, 0, 0⟩).1
  · have h2 := (C6_cooldown_throttles (fun _ => 1) (fun _ => 0)
      Configuration.default 9
      ⟨⟨0, 0⟩, 30, 0, 0, 0, 0, [], .Free, 0, 0⟩).2
      ⟨⟨⟨0, 0⟩, 30, 0, 0, 0, 0, [(.fire, 5)], .Free, 35, 0⟩, [], [], []⟩
      .fire 5 [] rfl rfl rfl (by norm_num)
    simpa using h2

/-! ### Claim C4: quadtree queries over successfully built trees

The key structural fact: with the buggy child insertion (`pp` or panic), a
childless node that is at capacity can never accept another in-bound point —
the attempt either panics or runs out of any fuel.  Hence every tree
reachable from the builder by insertions that all return `true` is a single
leaf holding exactly the inserted data, and the query iterator on a single
leaf yields exactly the stored points contained in the query box. -/

/-- A sequence of insertions required to all succeed (return `true`). -/
def insertAllOk (fuel : ℕ) : QTree T → List (Pair × T) → Option (QTree T)
  | t, [] => some t
  | t, d :: ds =>
    match QTree.addPt fuel t d with
    | .ok (t', true) => insertAllOk fuel t' ds
    | _ => none

theorem addPt_not_contains (fuel : ℕ) (n : QTree T) (d : Pair × T)
    (hc : n.bound.contains d.1 = false) :
    QTree.addPt (fuel + 1) n d = Except.ok (n, false) := by
  simp [QTree.addPt, hc, Pure.pure, Except.pure]

theorem addPt_leaf_push (fuel : ℕ) (b : AABB) (data : List (Pair × T))
    (m : ℕ) (d : Pair × T) (hc : b.contains d.1 = true)
    (hlen : data.length < m) :
    QTree.addPt (fuel + 1) (QTree.mk b none data m) d =
      Except.ok (QTree.mk b none (data ++ [d]) m, true) := by
  simp [QTree.addPt, QTree.bound, QTree.data, QTree.maxData, QTree.children,
    hc, Nat.not_le.mpr hlen, Bind.bind, Except.bind, Pure.pure, Except.pure]

/-- Behavior of the redistribution fold of `subdivide` when the target `pp`
child is a leaf with enough spare capacity: it either panics (some datum is
rejected by `pp`'s bound, or fuel runs out) or deposits every datum, in
order, into `pp`. -/
theorem foldInsert_leaf_spec :
    ∀ (ds : List (Pair × T)) (fuel : ℕ) (pb : AABB)
      (pdata : List (Pair × T)) (m : ℕ) (c2 c3 c4 : QTree T),
      pdata.length + ds.length ≤ m →
      (∃ e, ds.foldlM (QTree.insertChildrenWith (QTree.addPt fuel))
          (QTree.mk pb none pdata m, c2, c3, c4) = Except.error e)
      ∨ ds.foldlM (QTree.insertChildrenWith (QTree.addPt fuel))
          (QTree.mk pb none pdata m, c2, c3, c4) =
          Except.ok (QTree.mk pb none (pdata ++ ds) m, c2, c3, c4) := by
  intro ds
  induction ds with
  | nil =>
    intro fuel pb pdata m c2 c3 c4 _
    right
    simp [List.foldlM, Pure.pure, Except.pure]
  | cons d ds ih =>
    intro fuel pb pdata m c2 c3 c4 hlen
    cases fuel with
    | zero =>
      left
      refine ⟨QPanic.fuelOut, ?_⟩
      simp [List.foldlM, QTree.insertChildrenWith, QTree.addPt,
        Bind.bind, Except.bind]
    | succ g =>
      cases hc : pb.contains d.1 with
      | false =>
        left
        have hstep : QTree.insertChildrenWith (QTree.addPt (g + 1))
            (QTree.mk pb none pdata m, c2, c3, c4) d =
            Except.error QPanic.unwrapNone := by
          have hb : (QTree.mk pb none pdata m : QTree T).bound.contains d.1
              = false := by simpa [QTree.bound] using hc
          simp [QTree.insertChildrenWith,
            addPt_not_contains g (QTree.mk pb none pdata m) d hb,
            Bind.bind, Except.bind]
        refine ⟨QPanic.unwrapNone, ?_⟩
        simp [List.foldlM, hstep, Bind.bind, Except.bind]
      | true =>
        have hlt : pdata.length < m := by
          simp at hlen; omega
        have hstep : QTree.insertChildrenWith (QTree.addPt (g + 1))
            (QTree.mk pb none pdata m, c2, c3, c4) d =
            Except.ok (QTree.mk pb none (pdata ++ [d]) m, c2, c3, c4) := by
          simp [QTree.insertChildrenWith,
            addPt_leaf_push g pb pdata m d hc hlt,
            Bind.bind, Except.bind, Pure.pure, Except.pure]
        have h2 : (pdata ++ [d]).length + ds.length ≤ m := by
          simp at hlen ⊢; omega
        rcases ih (g + 1) pb (pdata ++ [d]) m c2 c3 c4 h2 with ⟨e, he⟩ | hok
        · left
          refine ⟨e, ?_⟩
          simp [List.foldlM, hstep, Bind.bind, Except.bind, he]
        · right
          simp only [List.foldlM, hstep, Bind.bind, Except.bind, hok,
            List.append_assoc, List.singleton_append]

/-- The `pp` child's bound after subdividing a node with bound `b`:
`AABB::new(midp, halfdim)`. -/
def ppBound (b : AABB) : AABB :=
  AABB.new (b.org + b.dim.scale (1/2)) (b.dim.scale (1/2))

/-- One unfolding of `add_pt` on a childless node at capacity holding an
in-bound point: subdivide, then insert into the (new) children. -/
theorem addPt_overCapacity_eval (g : ℕ) (b : AABB) (data : List (Pair × T))
    (m : ℕ) (d : Pair × T) (hc : b.contains d.1 = true)
    (hge : m ≤ data.length) :
    QTree.addPt (g + 1) (QTree.mk b none data m) d =
      (QTree.subdivideWith (QTree.addPt g) (QTree.mk b none data m)) >>=
        fun n =>
          match n.children with
          | some cs =>
            (QTree.insertChildrenWith (QTree.addPt g) cs d) >>= fun cs' =>
              pure (QTree.mk n.bound (some cs') n.data n.maxData, true)
          | none =>
            pure (QTree.mk n.bound n.children (n.data ++ [d]) n.maxData,
              true) := by
  simp [QTree.addPt, QTree.bound, QTree.data, QTree.maxData, hc, hge,
    Bind.bind, Except.bind]

/-- `subdivide` on a childless node: redistribute the data into the four
fresh children (in the buggy way), then install them. -/
theorem subdivideWith_leaf_eval (g : ℕ) (b : AABB) (data : List (Pair × T))
    (m : ℕ) :
    QTree.subdivideWith (QTree.addPt g) (QTree.mk b none data m : QTree T) =
      (data.foldlM (QTree.insertChildrenWith (QTree.addPt g))
        (QTree.mk (ppBound b) none [] m,
         QTree.mk (AABB.new ⟨(b.org + b.dim.scale (1/2)).x, b.org.y⟩
            (b.dim.scale (1/2))) none [] m,
         QTree.mk (AABB.new ⟨b.org.x, (b.org + b.dim.scale (1/2)).y⟩
            (b.dim.scale (1/2))) none [] m,
         QTree.mk (AABB.new b.org (b.dim.scale (1/2))) none [] m)) >>=
        fun cs' => pure (QTree.mk b (some cs') [] m) := by
  simp only [QTree.subdivideWith, QTree.deriveChild, QTree.bound, QTree.data,
    QTree.maxData, ppBound]

/-- A childless node at capacity never accepts an in-bound point: `add_pt`
on it either reports the point out of bound (`false`) or panics/diverges —
it never returns `true`. -/
theorem addPt_full_leaf :
    ∀ (fuel : ℕ) (b : AABB) (data : List (Pair × T)) (m : ℕ) (d : Pair × T),
      data.length = m →
      (QTree.addPt fuel (QTree.mk b none data m) d =
          Except.ok (QTree.mk b none data m, false)
        ∧ b.contains d.1 = false)
      ∨ ∃ e, QTree.addPt fuel (QTree.mk b none data m) d = Except.error e := by
  intro fuel
  induction fuel using Nat.strong_induction_on with
  | _ fuel ih =>
    intro b data m d hlen
    cases fuel with
    | zero => right; exact ⟨QPanic.fuelOut, rfl⟩
    | succ g =>
      cases hc : b.contains d.1 with
      | false =>
        left
        exact ⟨addPt_not_contains g _ d (by simpa [QTree.bound] using hc), rfl⟩
      | true =>
        right
        rw [addPt_overCapacity_eval g b data m d hc (le_of_eq hlen.symm),
          subdivideWith_leaf_eval]
        rcases foldInsert_leaf_spec data g (ppBound b) [] m
            (QTree.mk (AABB.new ⟨(b.org + b.dim.scale (1/2)).x, b.org.y⟩
              (b.dim.scale (1/2))) none [] m)
            (QTree.mk (AABB.new ⟨b.org.x, (b.org + b.dim.scale (1/2)).y⟩
              (b.dim.scale (1/2))) none [] m)
            (QTree.mk (AABB.new b.org (b.dim.scale (1/2))) none [] m)
            (by simp [hlen]) with ⟨e, he⟩ | hok
        · refine ⟨e, ?_⟩
          rw [he]
          rfl
        · rw [List.nil_append] at hok
          rw [hok]
          simp only [Bind.bind, Except.bind, Pure.pure, Except.pure,
            QTree.children]
          cases g with
          | zero =>
            refine ⟨QPanic.fuelOut, ?_⟩
            simp [QTree.insertChildrenWith, QTree.addPt, Bind.bind,
              Except.bind]
          | succ g2 =>
            rcases ih (g2 + 1) (by omega) (ppBound b) data m d hlen
              with ⟨hokpp, _⟩ | ⟨e, he⟩
            · refine ⟨QPanic.unwrapNone, ?_⟩
              simp [QTree.insertChildrenWith, hokpp, Bind.bind, Except.bind]
            · refine ⟨e, ?_⟩
              simp [QTree.insertChildrenWith, he, Bind.bind, Except.bind]

/-- Characterization of successful insertion sequences: starting from a
childless node with spare capacity, an all-successful sequence keeps the
node a leaf and appends the data in order, never exceeding capacity. -/
theorem insertAllOk_leaf_spec :
    ∀ (ds : List (Pair × T)) (fuel : ℕ) (b : AABB) (data : List (Pair × T))
      (m : ℕ) (t : QTree T), data.length ≤ m →
      insertAllOk fuel (QTree.mk b none data m) ds = some t →
      t = QTree.mk b none (data ++ ds) m ∧ (data ++ ds).length ≤ m := by
  intro ds
  induction ds with
  | nil =>
    intro fuel b data m t hlen h
    simp only [insertAllOk, Option.some.injEq] at h
    simp [h.symm, hlen]
  | cons d ds ih =>
    intro fuel b data m t hlen h
    cases fuel with
    | zero => simp [insertAllOk, QTree.addPt] at h
    | succ g =>
      cases hc : b.contains d.1 with
      | false =>
        have hb : (QTree.mk b none data m : QTree T).bound.contains d.1
            = false := by simpa [QTree.bound] using hc
        simp [insertAllOk, addPt_not_contains g _ d hb] at h
      | true =>
        rcases Nat.lt_or_ge data.length m with hlt | hge2
        · simp only [insertAllOk, addPt_leaf_push g b data m d hc hlt] at h
          have hrec := ih (g + 1) b (data ++ [d]) m t
            (by simpa using hlt) h
          rcases hrec with ⟨ht, hl⟩
          constructor
          · rw [ht]
            simp
          · simpa using hl
        · have hm : data.length = m := le_antisymm hlen hge2
          rcases addPt_full_leaf (g + 1) b data m d hm with ⟨hok, _⟩ | ⟨e, he⟩
          · simp [insertAllOk, hok] at h
          · simp [insertAllOk, he] at h

/-- The query iterator on a single childless node yields, in order, exactly
the stored data contained in the query box.  (`l` is the suffix of the data
not yet passed by the iterator's index.) -/
theorem queryRun_leaf_spec (q : AABB) :
    ∀ (l : List (Pair × T)) (qfuel i : ℕ) (b : AABB) (m : ℕ)
      (data : List (Pair × T)),
      data.drop i = l → l.length + 2 ≤ qfuel →
      queryRun qfuel q [QTree.mk b none data m] i =
        l.filter (fun d => q.contains d.1) := by
  intro l
  induction l with
  | nil =>
    intro qfuel i b m data hdrop hfuel
    obtain ⟨f, rfl⟩ : ∃ f, qfuel = f + 1 := ⟨qfuel - 1, by omega⟩
    have hscan : scanFrom q data i = none := by
      simp [scanFrom, hdrop, scanFromAux]
    simp only [queryRun, QTree.data, hscan]
    cases f with
    | zero => simp [queryRun]
    | succ f2 => simp [queryRun, QTree.pushIntersecting, QTree.children]
  | cons d l ih =>
    intro qfuel i b m data hdrop hfuel
    obtain ⟨f, rfl⟩ : ∃ f, qfuel = f + 1 := ⟨qfuel - 1, by omega⟩
    rw [List.length_cons] at hfuel
    have hi : i < data.length := by
      by_contra hge
      rw [List.drop_eq_nil_of_le (Nat.le_of_not_lt hge)] at hdrop
      exact List.cons_ne_nil d l hdrop.symm
    have hdrop1 : data.drop (i + 1) = l := by
      rw [← List.tail_drop, hdrop]
      rfl
    cases hcont : q.contains d.1 with
    | true =>
      have hscan : scanFrom q data i = some (d, i + 1) := by
        simp [scanFrom, hdrop, scanFromAux, hcont]
      simp only [queryRun, QTree.data, hscan]
      rw [ih f (i + 1) b m data hdrop1 (by omega)]
      simp [List.filter_cons, hcont]
    | false =>
      have hscan : scanFrom q data i = scanFromAux q l (i + 1) := by
        simp [scanFrom, hdrop, scanFromAux, hcont]
      have hscan1 : scanFrom q data (i + 1) = scanFromAux q l (i + 1) := by
        simp [scanFrom, hdrop1]
      have heq : queryRun (f + 1) q [QTree.mk b none data m] i =
          queryRun (f + 1) q [QTree.mk b none data m] (i + 1) := by
        simp only [queryRun, QTree.data, hscan, hscan1]
        cases hs : scanFromAux q l (i + 1) with
        | some di => rfl
        | none =>
          rw [Nat.max_eq_right (Nat.le_of_lt hi), Nat.max_eq_right hi]
      rw [heq, ih (f + 1) (i + 1) b m data hdrop1 (by omega)]
      simp [List.filter_cons, hcont]

/-- C4, confirmed.  For every quadtree built from the builder by a sequence
of `add_pt` insertions that all succeed (return `true` without panicking)
and every query AABB `q`, the query yields exactly the inserted points that
`q` contains — each exactly once, in insertion order, and no point outside
`q`.  (By `addPt_full_leaf`, successful insertion sequences never manage to
grow the tree past a single leaf: a full leaf panics or diverges instead of
accepting a point, so all reachable trees are single leaves.) -/
theorem C4_query_exactly_once (V : Type) (bound : AABB) (m : ℕ)
    (ds : List (Pair × V)) (ifuel qfuel : ℕ) (q : AABB) (t : QTree V)
    (hins : insertAllOk ifuel (QTree.build bound m : QTree V) ds = some t)
    (hq : ds.length + 2 ≤ qfuel) :
    t.query qfuel q = ds.filter (fun d => q.contains d.1) := by
  have hspec := insertAllOk_leaf_spec ds ifuel bound [] m t (by simp)
    (by simpa [QTree.build] using hins)
  rw [List.nil_append] at hspec
  rcases hspec with ⟨rfl, -⟩
  unfold QTree.query
  exact queryRun_leaf_spec q ds qfuel 0 bound m ds (by simp) hq

/-- Witness for C4: two successful insertions into `[0,8)²`, queried with
`[0,4)²`: the query returns exactly the one contained point. -/
theorem C4_witness :
    insertAllOk 3 (QTree.build ⟨⟨0, 0⟩, ⟨8, 8⟩⟩ DEFAULT_QUAD_SIZE : QTree ℕ)
        [(⟨1, 1⟩, 0), (⟨5, 5⟩, 1)]
      = some (QTree.mk ⟨⟨0, 0⟩, ⟨8, 8⟩⟩ none [(⟨1, 1⟩, 0), (⟨5, 5⟩, 1)]
          DEFAULT_QUAD_SIZE)
    ∧ QTree.query 4 (QTree.mk ⟨⟨0, 0⟩, ⟨8, 8⟩⟩ none
        [(⟨1, 1⟩, 0), (⟨5, 5⟩, 1)] DEFAULT_QUAD_SIZE) ⟨⟨0, 0⟩, ⟨4, 4⟩⟩
      = [(⟨1, 1⟩, 0)] := by
  have hins : insertAllOk 3
      (QTree.build ⟨⟨0, 0⟩, ⟨8, 8⟩⟩ DEFAULT_QUAD_SIZE : QTree ℕ)
      [(⟨1, 1⟩, 0), (⟨5, 5⟩, 1)]
      = some (QTree.mk ⟨⟨0, 0⟩, ⟨8, 8⟩⟩ none [(⟨1, 1⟩, 0), (⟨5, 5⟩, 1)]
          DEFAULT_QUAD_SIZE) := by
    norm_num [insertAllOk, QTree.addPt, QTree.build, QTree.bound, QTree.data,
      QTree.maxData, QTree.children, AABB.contains, AABB.opp, Pair.add_def,
      DEFAULT_QUAD_SIZE, Bind.bind, Except.bind, Pure.pure, Except.pure]
  refine ⟨hins, ?_⟩
  have h := C4_query_exactly_once ℕ ⟨⟨0, 0⟩, ⟨8, 8⟩⟩ DEFAULT_QUAD_SIZE
    [(⟨1, 1⟩, 0), (⟨5, 5⟩, 1)] 3 4 ⟨⟨0, 0⟩, ⟨4, 4⟩⟩ _ hins (by norm_num)
  rw [h]
  norm_num [List.filter, AABB.contains, AABB.opp, Pair.add_def]

/-! ### Claim C10: bullets fired this tick advance in the same tick -/

/-- The kinematic projection of a bullet: the collision sweep only flips
`dead` flags, it never moves a bullet. -/
def bulletKin (b : Bullet) : Pair × Pair := (b.pos, b.vel)

theorem markBulletDead_kin (bs : List Bullet) (i j : ℕ) :
    ((markBulletDead bs i).get? j).map bulletKin
      = (bs.get? j).map bulletKin := by
  rw [markBulletDead_get?]
  by_cases hj : j = i
  · rw [if_pos hj]
    cases bs.get? j <;> simp [bulletKin]
  · rw [if_neg hj]

theorem markRefs_bullets_kin :
    ∀ (v : List ERef) (acc : List Tank × List Bullet) (j : ℕ),
      ((markRefs v acc).2.get? j).map bulletKin
        = (acc.2.get? j).map bulletKin := by
  intro v
  induction v with
  | nil => intro acc j; rfl
  | cons r0 v ih =>
    intro acc j
    rw [markRefs_cons]
    cases r0 with
    | inl i => exact ih (markTankDead acc.1 i, acc.2) j
    | inr i =>
      calc ((markRefs v (acc.1, markBulletDead acc.2 i)).2.get? j).map bulletKin
          = ((markBulletDead acc.2 i).get? j).map bulletKin :=
            ih (acc.1, markBulletDead acc.2 i) j
        _ = (acc.2.get? j).map bulletKin := markBulletDead_kin acc.2 i j

theorem sweepMark_bullets_kin (v : List ERef) (ts : List Tank)
    (bs : List Bullet) (j : ℕ) :
    ((sweepMark v ts bs).2.get? j).map bulletKin
      = (bs.get? j).map bulletKin := by
  unfold sweepMark
  split
  · exact markRefs_bullets_kin v (ts, bs) j
  · rfl

theorem sweepFold_bullets_kin (fuel : ℕ) (hitRad : ℚ) (tanks : List Tank)
    (root : QTree ERef) :
    ∀ (l : List ℕ) (acc : List Tank × List Bullet) (j : ℕ),
      ((l.foldl (fun acc i =>
          match tanks.get? i with
          | some t =>
            sweepMark ((root.query fuel
              (collisionQueryBox t.pos hitRad)).map Prod.snd) acc.1 acc.2
          | Option.none => acc) acc).2.get? j).map bulletKin
        = (acc.2.get? j).map bulletKin := by
  intro l
  induction l with
  | nil => intro acc j; rfl
  | cons i0 l ih =>
    intro acc j
    rw [List.foldl_cons]
    cases h0 : tanks.get? i0 with
    | some t =>
      simp only [h0]
      calc ((l.foldl _ (sweepMark ((root.query fuel
              (collisionQueryBox t.pos hitRad)).map Prod.snd)
              acc.1 acc.2)).2.get? j).map bulletKin
          = (((sweepMark ((root.query fuel
              (collisionQueryBox t.pos hitRad)).map Prod.snd)
              acc.1 acc.2)).2.get? j).map bulletKin := ih _ j
        _ = (acc.2.get? j).map bulletKin := sweepMark_bullets_kin _ _ _ j
    | none =>
      simp only [h0]
      exact ih acc j

theorem collisionPhase_bullets_kin (fuel : ℕ) (hitRad : ℚ)
    (tanks : List Tank) (bullets : List Bullet) (ts : List Tank)
    (bs : List Bullet)
    (hcp : collisionPhase fuel hitRad tanks bullets = Except.ok (ts, bs))
    (j : ℕ) :
    (bs.get? j).map bulletKin = (bullets.get? j).map bulletKin := by
  unfold collisionPhase at hcp
  cases hroot : buildQuadTree fuel tanks bullets with
  | error e =>
    rw [hroot] at hcp
    simp [Bind.bind, Except.bind] at hcp
  | ok root =>
    rw [hroot] at hcp
    simp only [Bind.bind, Except.bind, Pure.pure, Except.pure,
      Except.ok.injEq] at hcp
    have h := sweepFold_bullets_kin fuel hitRad tanks root
      (List.range tanks.length) (tanks, bullets) j
    rw [hcp] at h
    exact h

/-- Every bullet a tick-loop run appends to the world was spawned by the
`Fire` arm: it has the `firedBullet` shape. -/
theorem tankLoop_bullets_fired (cosF sinF : ℚ → ℚ) (cfg : Configuration) :
    ∀ (fuel : ℕ) (o : TankStepOut),
      (∀ b ∈ o.bullets, ∃ p a, b = firedBullet cosF sinF cfg p a) →
      ∀ b ∈ (tankLoop cosF sinF cfg fuel o).bullets,
        ∃ p a, b = firedBullet cosF sinF cfg p a := by
  intro fuel
  induction fuel with
  | zero => intro o h; exact h
  | succ fuel ih =>
    have hdis : ∀ (o : TankStepOut) (u : Upcall),
        (∀ b ∈ o.bullets, ∃ p a, b = firedBullet cosF sinF cfg p a) →
        ∀ b ∈ (tankDispatchWith cosF sinF cfg
            (tankLoop cosF sinF cfg fuel) o u).bullets,
          ∃ p a, b = firedBullet cosF sinF cfg p a := by
      intro o u hb
      cases u with
      | fire =>
        simp only [tankDispatchWith]
        apply ih
        intro b hbm
        rcases List.mem_append.mp hbm with h1 | h2
        · exact hb b h1
        · rw [List.mem_singleton.mp h2]
          exact ⟨_, _, rfl⟩
      | scan lo hi =>
        simp only [tankDispatchWith]
        exact ih _ (fun b hbm => hb b hbm)
      | aim hd =>
        simp only [tankDispatchWith]
        exact ih _ (fun b hbm => hb b hbm)
      | turn hd =>
        simp only [tankDispatchWith]
        exact ih _ (fun b hbm => hb b hbm)
      | gpsx =>
        simp only [tankDispatchWith]
        exact ih _ (fun b hbm => hb b hbm)
      | gpsy =>
        simp only [tankDispatchWith]
        exact ih _ (fun b hbm => hb b hbm)
      | temp =>
        simp only [tankDispatchWith]
        exact ih _ (fun b hbm => hb b hbm)
      | forward =>
        simp only [tankDispatchWith]
        exact ih _ (fun b hbm => hb b hbm)
      | explode =>
        simp only [tankDispatchWith]
        exact fun b hbm => hb b hbm
      | none =>
        simp only [tankDispatchWith]
        exact fun b hbm => hb b hbm
    have hcool : ∀ (o : TankStepOut) (u : Upcall),
        (∀ b ∈ o.bullets, ∃ p a, b = firedBullet cosF sinF cfg p a) →
        ∀ b ∈ (tankCooldownWith cosF sinF cfg
            (tankLoop cosF sinF cfg fuel) o u).bullets,
          ∃ p a, b = firedBullet cosF sinF cfg p a := by
      intro o u hb
      unfold tankCooldownWith
      split
      · split
        · exact fun b hbm => hb b hbm
        · exact hdis _ u (fun b hbm => hb b hbm)
      · exact hdis o u hb
    intro o hb
    simp only [tankLoop]
    cases hst : o.tank.state with
    | Dead => simp only; exact hb
    | Pending u => exact hcool _ u (fun b hbm => hb b hbm)
    | Free =>
      cases hev : o.tank.events with
      | nil => exact hcool _ .none hb
      | cons uc rest =>
        obtain ⟨u, c⟩ := uc
        exact hcool _ u (fun b hbm => hb b hbm)

/-- Every bullet appended to the world's bullet list by one tank's step has
the `firedBullet` shape. -/
theorem TankStep_bullets_fired (cosF sinF : ℚ → ℚ) (cfg : Configuration)
    (fuel : ℕ) (t : Tank) :
    ∀ b ∈ (Tank.step cosF sinF cfg fuel t).bullets,
      ∃ p a, b = firedBullet cosF sinF cfg p a := by
  intro b hb
  have hbl : ∀ (o : TankStepOut) (pr : Pair × ℚ),
      (if o.tank.temp ≥ cfg.death_heat then
          { o with actions := o.actions ++ [pr] } else o).bullets
        = o.bullets := by
    intro o pr
    split <;> rfl
  unfold Tank.step at hb
  rw [hbl] at hb
  exact tankLoop_bullets_fired cosF sinF cfg fuel _ (by intro b2 hb2; cases hb2)
    b hb

/-- Every bullet collected by the tank phase has the `firedBullet` shape. -/
theorem tankPhase_bullets_fired (cosF sinF : ℚ → ℚ) (cfg : Configuration)
    (fuel : ℕ) :
    ∀ (tanks : List Tank)
      (acc : List Tank × List Bullet × List (Pair × ℚ)),
      (∀ b ∈ acc.2.1, ∃ p a, b = firedBullet cosF sinF cfg p a) →
      ∀ b ∈ (tanks.foldl (fun acc t =>
          if t.state.isDead then (acc.1 ++ [t], acc.2.1, acc.2.2)
          else
            let o := Tank.step cosF sinF cfg fuel t
            (acc.1 ++ [o.tank], acc.2.1 ++ o.bullets,
              acc.2.2 ++ o.actions)) acc).2.1,
        ∃ p a, b = firedBullet cosF sinF cfg p a := by
  intro tanks
  induction tanks with
  | nil => intro acc hb; exact hb
  | cons t tanks ih =>
    intro acc hb
    rw [List.foldl_cons]
    split
    · exact ih _ (fun b hbm => hb b hbm)
    · apply ih
      intro b hbm
      rcases List.mem_append.mp hbm with h1 | h2
      · exact hb b h1
      · exact TankStep_bullets_fired cosF sinF cfg fuel t b h2

/-- One-step unfolding of `World::step` in terms of its phases. -/
theorem World.step_eval (cosF sinF : ℚ → ℚ) (fuel : ℕ) (w : World) :
    World.step cosF sinF fuel w =
      (collisionPhase fuel w.config.hit_rad
          (tankPhase cosF sinF w.config fuel w.tanks).1
          ((w.bullets ++ (tankPhase cosF sinF w.config fuel w.tanks).2.1).map
            Bullet.step)) >>= fun r =>
        pure ⟨w.config,
          drainActions (w.action_queue ++
            (tankPhase cosF sinF w.config fuel w.tanks).2.2) r.1,
          r.2.filter (fun b => !b.dead), []⟩ := by
  unfold World.step
  cases htp : tankPhase cosF sinF w.config fuel w.tanks with
  | mk ts rest =>
    cases rest with
    | mk nb na =>
      dsimp only

/-- C10, confirmed.  (1) Every bullet surviving a `World::step` is not dead
and was advanced exactly once during the step: it came either from a bullet
already in the world, or from a bullet fired during this step's tank phase —
in which case its end-of-step position is the spawn position
`tank.pos + polar(aim)·bullet_s` PLUS the velocity `polar(aim)·bullet_v`,
not the spawn position itself.  (2) Every bullet produced by the tank phase
has the `firedBullet` spawn shape. -/
theorem C10_fired_bullet_advances (cosF sinF : ℚ → ℚ) (fuel : ℕ)
    (w w' : World) (hw : World.step cosF sinF fuel w = Except.ok w') :
    (∀ b ∈ w'.bullets, b.dead = false ∧
      ((∃ b0 ∈ w.bullets, b.pos = b0.pos + b0.vel ∧ b.vel = b0.vel) ∨
       (∃ p a, b.pos = (p + (Pair.polar cosF sinF a).scale w.config.bullet_s)
            + (Pair.polar cosF sinF a).scale w.config.bullet_v ∧
          b.vel = (Pair.polar cosF sinF a).scale w.config.bullet_v)))
    ∧ (∀ b0 ∈ (tankPhase cosF sinF w.config fuel w.tanks).2.1,
        ∃ p a, b0 = firedBullet cosF sinF w.config p a) := by
  have hfired : ∀ b0 ∈ (tankPhase cosF sinF w.config fuel w.tanks).2.1,
      ∃ p a, b0 = firedBullet cosF sinF w.config p a := by
    intro b0 hb0
    unfold tankPhase at hb0
    exact tankPhase_bullets_fired cosF sinF w.config fuel w.tanks
      ([], [], []) (by intro b hb; cases hb) b0 hb0
  refine ⟨?_, hfired⟩
  rw [World.step_eval] at hw
  cases hcp : collisionPhase fuel w.config.hit_rad
      (tankPhase cosF sinF w.config fuel w.tanks).1
      ((w.bullets ++ (tankPhase cosF sinF w.config fuel w.tanks).2.1).map
        Bullet.step) with
  | error e =>
    rw [hcp] at hw
    simp [Bind.bind, Except.bind] at hw
  | ok r =>
    obtain ⟨ts, bs⟩ := r
    rw [hcp] at hw
    simp only [Bind.bind, Except.bind, Pure.pure, Except.pure,
      Except.ok.injEq] at hw
    intro b hb
    have hbw : b ∈ bs.filter (fun b => !b.dead) := by
      rw [← hw] at hb
      exact hb
    have hmem := List.mem_filter.mp hbw
    have hdead : b.dead = false := by
      simpa using hmem.2
    refine ⟨hdead, ?_⟩
    obtain ⟨j, hj⟩ := List.mem_iff_get?.mp hmem.1
    have hkin := collisionPhase_bullets_kin fuel w.config.hit_rad
      (tankPhase cosF sinF w.config fuel w.tanks).1
      ((w.bullets ++ (tankPhase cosF sinF w.config fuel w.tanks).2.1).map
        Bullet.step) ts bs hcp j
    rw [hj] at hkin
    cases hsrc : ((w.bullets ++
        (tankPhase cosF sinF w.config fuel w.tanks).2.1).map
          Bullet.step).get? j with
    | none =>
      rw [hsrc] at hkin
      exact Option.noConfusion hkin
    | some b1 =>
      rw [hsrc] at hkin
      have hkin2 : bulletKin b = bulletKin b1 := Option.some.inj hkin
      have hk1 : b.pos = b1.pos := congrArg Prod.fst hkin2
      have hk2 : b.vel = b1.vel := congrArg Prod.snd hkin2
      have hb1mem : b1 ∈ (w.bullets ++
          (tankPhase cosF sinF w.config fuel w.tanks).2.1).map Bullet.step :=
        List.get?_mem hsrc
      obtain ⟨b0, hb0mem, hb0step⟩ := List.mem_map.mp hb1mem
      have hpos : b.pos = b0.pos + b0.vel := by
        rw [hk1, ← hb0step]
        rfl
      have hvel : b.vel = b0.vel := by
        rw [hk2, ← hb0step]
        rfl
      rcases List.mem_append.mp hb0mem with hold | hnew
      · exact Or.inl ⟨b0, hold, hpos, hvel⟩
      · obtain ⟨p, a, rfl⟩ := hfired b0 hnew
        refine Or.inr ⟨p, a, ?_, ?_⟩
        · rw [hpos]; rfl
        · rw [hvel]; rfl

set_option maxHeartbeats 1000000 in
/-- Concrete one-tank `Tank::step` evaluation for the C10 witness: the tank
fires (spawning a bullet at `(30, 0)` with velocity `(5, 0)`), then the
cooldown catches the scripted `None` and the loop breaks. -/
theorem c10TankStepEval :
    Tank.step (fun _ => 1) (fun _ => 0) Configuration.default 3
      ⟨⟨0, 0⟩, 30, 0, 0, 0, 0, [(.fire, 5), (.none, 20)], .Free, 0, 0⟩
      = ⟨⟨⟨0, 0⟩, 30, 0, 0, 0, 26, [], .Free, 35, 20⟩,
          [⟨⟨30, 0⟩, ⟨5, 0⟩, false⟩], [], [.fire, .none]⟩ := by
  norm_num [Tank.step, tankLoop, tankCooldownWith,
    tankDispatchWith, firedBullet, Pair.polar, Tank.applyHeat,
    TankState.isDead, Upcall.alters_world, Pair.scale, Pair.add_def,
    Configuration.default]
  decide

/-- Concrete tank-phase evaluation for the C10 witness. -/
theorem c10TankPhaseEval :
    tankPhase (fun _ => 1) (fun _ => 0) Configuration.default 3
      [⟨⟨0, 0⟩, 30, 0, 0, 0, 0, [(.fire, 5), (.none, 20)], .Free, 0, 0⟩]
      = ([⟨⟨0, 0⟩, 30, 0, 0, 0, 26, [], .Free, 35, 20⟩],
          [⟨⟨30, 0⟩, ⟨5, 0⟩, false⟩], []) := by
  simp only [tankPhase, List.foldl_cons, List.foldl_nil, TankState.isDead,
    c10TankStepEval, List.nil_append]
  rfl

set_option maxHeartbeats 1000000 in
/-- Concrete collision-phase evaluation for the C10 witness: the degenerate
root box drops both entities, so the sweep changes nothing. -/
theorem c10CollisionPhaseEval :
    collisionPhase 3 (10:ℚ)
      [⟨⟨0, 0⟩, 30, 0, 0, 0, 26, [], .Free, 35, 20⟩]
      [⟨⟨35, 0⟩, ⟨5, 0⟩, false⟩]
      = Except.ok ([⟨⟨0, 0⟩, 30, 0, 0, 0, 26, [], .Free, 35, 20⟩],
          [⟨⟨35, 0⟩, ⟨5, 0⟩, false⟩]) := by
  norm_num [collisionPhase, buildQuadTree, AABB.over_points, AABB.enclose,
    AABB.around, AABB.new, AABB.contains, AABB.intersect, AABB.opp,
    AABB.empty, Pair.mins, Pair.maxs, Pair.zero, Pair.both, Pair.scale,
    Pair.add_def, Pair.neg_def, QTree.build, QTree.addPt, QTree.bound,
    QTree.children, QTree.data, QTree.maxData, QTree.query, queryRun,
    scanFrom, scanFromAux, QTree.pushIntersecting, DEFAULT_QUAD_SIZE,
    collisionQueryBox, Bind.bind, Except.bind, Pure.pure, Except.pure,
    List.foldlM, List.range_succ, sweepMark, markRefs, refLive,
    markTankDead, markBulletDead]

set_option maxHeartbeats 1000000 in
/-- Concrete `World::step` evaluation for the C10 witness. -/
theorem c10WorldStepEval :
    World.step (fun _ => 1) (fun _ => 0) 3
      ⟨Configuration.default,
        [⟨⟨0, 0⟩, 30, 0, 0, 0, 0, [(.fire, 5), (.none, 20)], .Free, 0, 0⟩],
        [], []⟩
      = Except.ok ⟨Configuration.default,
          [⟨⟨0, 0⟩, 30, 0, 0, 0, 26, [], .Free, 35, 20⟩],
          [⟨⟨35, 0⟩, ⟨5, 0⟩, false⟩], []⟩ := by
  rw [World.step_eval]
  rw [show (⟨Configuration.default,
      [⟨⟨0, 0⟩, 30, 0, 0, 0, 0, [(.fire, 5), (.none, 20)], .Free, 0, 0⟩],
      [], []⟩ : World).config = Configuration.default from rfl]
  rw [show (⟨Configuration.default,
      [⟨⟨0, 0⟩, 30, 0, 0, 0, 0, [(.fire, 5), (.none, 20)], .Free, 0, 0⟩],
      [], []⟩ : World).tanks =
      [⟨⟨0, 0⟩, 30, 0, 0, 0, 0, [(.fire, 5), (.none, 20)], .Free, 0, 0⟩]
      from rfl]
  rw [c10TankPhaseEval]
  norm_num [Bullet.step, Pair.add_def, Configuration.default]
  rw [c10CollisionPhaseEval]
  norm_num [Bind.bind, Except.bind, Pure.pure, Except.pure, drainActions]

/-- Witness for C10: a world with one tank that fires once.  The spawned
bullet (muzzle offset 30 along aim 0 from the origin) is advanced in the
same step: it survives at `(35, 0)` — spawn `(30, 0)` plus velocity
`(5, 0)` — and the theorem's conclusion holds at it. -/
theorem C10_witness :
    World.step (fun _ => 1) (fun _ => 0) 3
        ⟨Configuration.default,
          [⟨⟨0, 0⟩, 30, 0, 0, 0, 0, [(.fire, 5), (.none, 20)], .Free, 0, 0⟩],
          [], []⟩
      = Except.ok ⟨Configuration.default,
          [⟨⟨0, 0⟩, 30, 0, 0, 0, 26, [], .Free, 35, 20⟩],
          [⟨⟨35, 0⟩, ⟨5, 0⟩, false⟩], []⟩
    ∧ (Bullet.mk ⟨35, 0⟩ ⟨5, 0⟩ false).dead = false
    ∧ ((∃ b0 ∈ ([] : List Bullet),
          (Bullet.mk ⟨35, 0⟩ ⟨5, 0⟩ false).pos = b0.pos + b0.vel ∧
          (Bullet.mk ⟨35, 0⟩ ⟨5, 0⟩ false).vel = b0.vel) ∨
        (∃ p a, (Bullet.mk ⟨35, 0⟩ ⟨5, 0⟩ false).pos =
            (p + (Pair.polar (fun _ => 1) (fun _ => 0) a).scale
              Configuration.default.bullet_s)
            + (Pair.polar (fun _ => 1) (fun _ => 0) a).scale
              Configuration.default.bullet_v ∧
          (Bullet.mk ⟨35, 0⟩ ⟨5, 0⟩ false).vel =
            (Pair.polar (fun _ => 1) (fun _ => 0) a).scale
              Configuration.default.bullet_v)) := by
  refine ⟨c10WorldStepEval, rfl, ?_⟩
  exact ((C10_fired_bullet_advances (fun _ => 1) (fun _ => 0) 3 _ _
    c10WorldStepEval).1 ⟨⟨35, 0⟩, ⟨5, 0⟩, false⟩ (by simp)).2

end RANKS
